import Mathlib

/-!
# MiKTeX package data store

A shallow embedding of `Libraries/MiKTeX/PackageManager/PackageDataStore.cpp`:
the in-memory package table, the file ownership table, the scoped
install-state store and the `Load` algorithm (merge, dependency pass,
synthetic containers), followed by theorems about them.

Conventions of the embedding.

* A member function that can throw returns `Except Error α` together with the
  store it leaves behind; a member function that cannot throw returns its value
  and the store.
* `packageTable` is the list of its entries in table iteration order; the key of
  an entry is its `id` field (`DefinePackage` inserts under `packageInfo.id` and
  nothing ever assigns `id` afterwards).  A `for (auto& kv : packageTable)` loop
  walks the keys the table has when the loop starts and reads the current entry
  of each key.
* `installedFileInfoTable` maps a path to its entry, `none` when there is none.
  `refCount` is a natural number: a count grows by one per walked file list
  entry and cannot reach `2^64`.
* `time_t` is a signed 64 bit integer, embedded in `Int`.
-/

namespace PackageDataStore

/-! ## Time stamps -/

abbrev time_t := Int

/-- Conversion `static_cast<time_t>(n)` of an unsigned 64 bit value to the signed
64 bit `time_t`. -/
def castTimeT (n : Nat) : time_t :=
  if n % 2 ^ 64 < 2 ^ 63 then ((n % 2 ^ 64 : Nat) : Int) else ((n % 2 ^ 64 : Nat) : Int) - 2 ^ 64

/-- Modelled from the spec: the header that declares `InvalidTimeT` is missing.
The spec knows a single well-defined "invalid" sentinel; it is the all-ones value
`static_cast<time_t>(-1)`. -/
def InvalidTimeT : time_t := -1

/-- Modelled from the spec: the header that declares `IsValidTimeT` is missing.
A time stamp is valid when it is not the invalid sentinel. -/
def IsValidTimeT (t : time_t) : Bool := t != InvalidTimeT

/-! ## Package records -/

inductive RepositoryReleaseState where
  | Unknown
  | Stable
  | Next
deriving DecidableEq, Repr

/-- The record `PackageInfo` (section 3 of the spec, `PackageRecord`). -/
structure PackageInfo where
  id : String
  displayName : String
  title : String
  description : String
  requiredPackages : List String
  requiredBy : List String
  runFiles : List String
  docFiles : List String
  sourceFiles : List String
  timePackaged : time_t
  timeInstalled : time_t
  timeInstalledByAdmin : time_t
  timeInstalledByUser : time_t
  isRemovable : Bool
  isObsolete : Bool
  releaseState : RepositoryReleaseState
  targetSystem : String
deriving DecidableEq, Repr

namespace PackageInfo

/-- Modelled from the spec: the header of `PackageInfo` is missing.  A default
constructed `PackageInfo()`: empty strings and lists, no valid time stamp,
release state `Unknown`. -/
def default : PackageInfo :=
  { id := "", displayName := "", title := "", description := "",
    requiredPackages := [], requiredBy := [],
    runFiles := [], docFiles := [], sourceFiles := [],
    timePackaged := InvalidTimeT, timeInstalled := InvalidTimeT,
    timeInstalledByAdmin := InvalidTimeT, timeInstalledByUser := InvalidTimeT,
    isRemovable := false, isObsolete := false,
    releaseState := RepositoryReleaseState.Unknown, targetSystem := "" }

/-- Total number of files of the package. -/
def GetNumFiles (p : PackageInfo) : Nat :=
  p.runFiles.length + p.docFiles.length + p.sourceFiles.length

/-- Modelled from the spec: the header of `PackageInfo` is missing.  A package is
installed when it has a valid install time. -/
def IsInstalled (p : PackageInfo) : Bool := IsValidTimeT p.timeInstalled

/-- Modelled from the spec: the header of `PackageInfo` is missing.  `isContained`:
the package appears in some package's `requiredPackages`, which the record knows
through its derived `requiredBy` list (this is what makes the members of the
obsolete container "already contained" for the second synthesis pass). -/
def IsContained (p : PackageInfo) : Bool := !p.requiredBy.isEmpty

/-- Modelled from the spec: the header of `PackageInfo` is missing.  `isContainer`:
has dependencies, no files. -/
def IsContainer (p : PackageInfo) : Bool :=
  !p.requiredPackages.isEmpty && p.GetNumFiles == 0

/-- Modelled from the spec: the header of `PackageInfo` is missing.
`isPureContainer`: container with zero files and at least one dependency. -/
def IsPureContainer (p : PackageInfo) : Bool :=
  p.GetNumFiles == 0 && !p.requiredPackages.isEmpty

end PackageInfo

/-- What `PackageManager::GetPackageManifest` reads for one key of a manifest
file: the manifest data of a package.  Install state is not part of a manifest. -/
structure Manifest where
  id : String
  displayName : String
  title : String
  description : String
  requiredPackages : List String
  runFiles : List String
  docFiles : List String
  sourceFiles : List String
  timePackaged : time_t
  targetSystem : String
deriving DecidableEq, Repr

/-- Modelled from the spec: `PackageManager::GetPackageManifest` is missing.  It
fills a fresh `PackageInfo` with the manifest data of the key; the derived fields
keep the values of a default constructed record. -/
def GetPackageManifest (m : Manifest) : PackageInfo :=
  { PackageInfo.default with
    id := m.id, displayName := m.displayName, title := m.title,
    description := m.description, requiredPackages := m.requiredPackages,
    runFiles := m.runFiles, docFiles := m.docFiles, sourceFiles := m.sourceFiles,
    timePackaged := m.timePackaged, targetSystem := m.targetSystem }

/-- A `Cfg` holding package manifests: its keys in iteration order. -/
abbrev Cfg := List Manifest

/-- Modelled from the spec: `Cfg::Read` is missing.  Reading a file adds its
records in order; with the option `NoOverwriteKeys` a record whose id is already
a key of the `Cfg` is left out. -/
def Cfg.Read (noOverwriteKeys : Bool) (cfg : Cfg) (file : List Manifest) : Cfg :=
  if noOverwriteKeys then
    cfg ++ file.filter (fun m => !(cfg.map (fun k => k.id)).contains m.id)
  else
    cfg ++ file

/-! ## The scoped install-state store -/

/-- Modelled from the spec: `ComboCfg` is missing.  `ScopedInstallRecord`: what one
scope stores for one package id.  `TimeInstalled` holds the time the stored text
denotes, `Obsolete` the number `std::stoi` reads from the stored text,
`ReleaseState` the stored tag. -/
structure ScopedInstallRecord where
  TimeInstalled : Option time_t
  Obsolete : Option Int
  ReleaseState : Option String
deriving DecidableEq, Repr

/-- The records of one scope, by package id. -/
abbrev ScopeCfg := String → Option ScopedInstallRecord

/-- A value written with `ComboCfg::PutValue`, tagged with its value name. -/
inductive CfgValue where
  | TimeInstalled (t : time_t)
  | Obsolete (n : Int)
  | ReleaseState (tag : String)
deriving DecidableEq, Repr

inductive Scope where
  | User
  | Common
deriving DecidableEq, Repr

/-- Modelled from the spec: `ComboCfg` is missing.  Two independent scope
namespaces, loaded lazily once. -/
structure ComboCfg where
  loaded : Bool
  user : ScopeCfg
  common : ScopeCfg

namespace ComboCfg

def emptyScope : ScopeCfg := fun _ => none

def emptyRecord : ScopedInstallRecord :=
  { TimeInstalled := none, Obsolete := none, ReleaseState := none }

/-- Modelled from the spec: `ComboCfg::Load` is missing.  Opens the two scopes; a
scope without a file (an empty path) has no records. -/
def Load (userFile : Option ScopeCfg) (commonFile : ScopeCfg) : ComboCfg :=
  { loaded := true, user := userFile.getD emptyScope, common := commonFile }

/-- Modelled from the spec: `ComboCfg::Clear` is missing.  Discards the cache. -/
def Clear (_c : ComboCfg) : ComboCfg :=
  { loaded := false, user := emptyScope, common := emptyScope }

def scope (c : ComboCfg) : Scope → ScopeCfg
  | Scope.User => c.user
  | Scope.Common => c.common

/-- The scope mutators write to: Common in admin mode, User otherwise. -/
def currentScope (admin : Bool) : Scope := if admin then Scope.Common else Scope.User

def putScope (c : ComboCfg) (sc : Scope) (f : ScopeCfg) : ComboCfg :=
  match sc with
  | Scope.User => { c with user := f }
  | Scope.Common => { c with common := f }

def putRecord (r : ScopedInstallRecord) : CfgValue → ScopedInstallRecord
  | CfgValue.TimeInstalled t => { r with TimeInstalled := some t }
  | CfgValue.Obsolete n => { r with Obsolete := some n }
  | CfgValue.ReleaseState tag => { r with ReleaseState := some tag }

/-- Modelled from the spec: `ComboCfg::PutValue` is missing.  Stores one value in
the record of `packageId` in the current scope, creating the record when there
is none and keeping its other values. -/
def PutValue (c : ComboCfg) (admin : Bool) (packageId : String) (v : CfgValue) : ComboCfg :=
  c.putScope (currentScope admin)
    (fun k => if k = packageId
      then some (putRecord (((c.scope (currentScope admin)) packageId).getD emptyRecord) v)
      else (c.scope (currentScope admin)) k)

/-- Modelled from the spec: `ComboCfg::DeleteKey` is missing.  Deletes the whole
record of `packageId` in the current scope. -/
def DeleteKey (c : ComboCfg) (admin : Bool) (packageId : String) : ComboCfg :=
  c.putScope (currentScope admin)
    (fun k => if k = packageId then none else (c.scope (currentScope admin)) k)

/-- Lookup `TryGetValueAsString(scope, packageId, "TimeInstalled", str)`. -/
def TryGetTimeInstalled (c : ComboCfg) (sc : Scope) (packageId : String) : Option time_t :=
  (c.scope sc packageId).bind (fun r => r.TimeInstalled)

/-- Lookup `TryGetValueAsString(scope, packageId, "Obsolete", str)`. -/
def TryGetObsolete (c : ComboCfg) (sc : Scope) (packageId : String) : Option Int :=
  (c.scope sc packageId).bind (fun r => r.Obsolete)

/-- Lookup `TryGetValueAsString(scope, packageId, "ReleaseState", str)`. -/
def TryGetReleaseStateIn (c : ComboCfg) (sc : Scope) (packageId : String) : Option String :=
  (c.scope sc packageId).bind (fun r => r.ReleaseState)

/-- Modelled from the spec: `ComboCfg::TryGetValueAsString` without a scope is
missing.  Same fallback shape as the scoped lookups of the resolver: outside
admin mode the User scope is asked first, then the Common scope. -/
def TryGetReleaseState (c : ComboCfg) (admin : Bool) (packageId : String) : Option String :=
  match (if admin then none else c.TryGetReleaseStateIn Scope.User packageId) with
  | some str => some str
  | none => c.TryGetReleaseStateIn Scope.Common packageId

end ComboCfg

/-! ## Session, environment and store -/

/-- What the store asks the session. -/
structure Session where
  IsAdminMode : Bool
  IsMiKTeXDirect : Bool
  /-- Result of
  `GetSpecialPath(CommonInstallRoot).Canonicalize() == GetSpecialPath(UserInstallRoot).Canonicalize()` -/
  sameInstallRoots : Bool

/-- The surroundings of a store: the session, the compile-time target-system
filter and the files it reads.  A manifest file that does not exist is `none`;
the manifest files are taken as `NeedPackageManifestsIni` leaves them. -/
structure Env where
  session : Session
  IGNORE_OTHER_SYSTEMS : Bool
  /-- Result of `StringUtil::Contains(targetSystems, MIKTEX_SYSTEM_TAG)` -/
  containsSystemTag : String → Bool
  userManifestsIni : Option (List Manifest)
  commonManifestsIni : Option (List Manifest)
  userPackagesIni : ScopeCfg
  commonPackagesIni : ScopeCfg

structure InstalledFileInfo where
  refCount : Nat
deriving DecidableEq, Repr

abbrev PackageDefinitionTable := List PackageInfo
abbrev InstalledFileInfoTable := String → Option InstalledFileInfo

/-- The data members of `PackageDataStore`. -/
structure Store where
  packageTable : PackageDefinitionTable
  installedFileInfoTable : InstalledFileInfoTable
  loadedAllPackageManifests : Bool
  comboCfg : ComboCfg

/-- A freshly constructed store. -/
def Store.empty : Store :=
  { packageTable := [], installedFileInfoTable := fun _ => none,
    loadedAllPackageManifests := false,
    comboCfg := { loaded := false, user := ComboCfg.emptyScope, common := ComboCfg.emptyScope } }

inductive Error where
  /-- `MIKTEX_FATAL_ERROR_2("The requested package is unknown.", "name", id)` -/
  | NotFound (packageId : String)
  /-- `MIKTEX_UNEXPECTED()` -/
  | InvalidState
deriving DecidableEq, Repr

/-! ## Table primitives -/

/-- Lookup `packageTable.find(packageId)`. -/
def find (tbl : PackageDefinitionTable) (packageId : String) : Option PackageInfo :=
  List.find? (fun p => decide (p.id = packageId)) tbl

/-- Assignment through an iterator or reference to the entry of `packageId`. -/
def modify (tbl : PackageDefinitionTable) (packageId : String)
    (f : PackageInfo → PackageInfo) : PackageDefinitionTable :=
  tbl.map (fun p => if p.id = packageId then f p else p)

/-- Insertion `packageTable.insert(make_pair(packageInfo.id, packageInfo))`: no
effect when the key exists. -/
def insert (tbl : PackageDefinitionTable) (packageInfo : PackageInfo) : PackageDefinitionTable :=
  match find tbl packageInfo.id with
  | some _ => tbl
  | none => tbl ++ [packageInfo]

/-- The keys of the table in iteration order. -/
def keys (tbl : PackageDefinitionTable) : List String := tbl.map (fun p => p.id)

/-! ## The resolver (section 4.3) -/

def LoadVarData (env : Env) (s : Store) : Store :=
  if s.comboCfg.loaded then s
  else
    { s with
      comboCfg :=
        ComboCfg.Load (if env.session.IsAdminMode then none else some env.userPackagesIni)
          env.commonPackagesIni }

def GetUserTimeInstalled (env : Env) (s : Store) (packageId : String) : time_t × Store :=
  let s1 := LoadVarData env s
  match s1.comboCfg.TryGetTimeInstalled Scope.User packageId with
  | some t => (t, s1)
  | none => (InvalidTimeT, s1)

def GetCommonTimeInstalled (env : Env) (s : Store) (packageId : String) : time_t × Store :=
  let s1 := LoadVarData env s
  match s1.comboCfg.TryGetTimeInstalled Scope.Common packageId with
  | some t => (t, s1)
  | none => (InvalidTimeT, s1)

def GetTimeInstalled (env : Env) (s : Store) (packageId : String) : time_t × Store :=
  let s1 := LoadVarData env s
  match (if !env.session.IsAdminMode then s1.comboCfg.TryGetTimeInstalled Scope.User packageId
         else none) with
  | some t => (t, s1)
  | none =>
    match s1.comboCfg.TryGetTimeInstalled Scope.Common packageId with
    | some t => (t, s1)
    | none => (InvalidTimeT, s1)

def IsRemovable (env : Env) (s : Store) (packageId : String) : Bool × Store :=
  let s1 := LoadVarData env s
  if env.session.IsAdminMode then
    -- administrator can remove system-wide packages
    let r := GetCommonTimeInstalled env s1 packageId
    (IsValidTimeT r.1, r.2)
  else
    -- user can remove private packages
    if env.session.sameInstallRoots then
      let r := GetTimeInstalled env s1 packageId
      (IsValidTimeT r.1, r.2)
    else
      let r := GetUserTimeInstalled env s1 packageId
      (IsValidTimeT r.1, r.2)

def IsObsolete (env : Env) (s : Store) (packageId : String) : Bool × Store :=
  let s1 := LoadVarData env s
  match (if !env.session.IsAdminMode then s1.comboCfg.TryGetObsolete Scope.User packageId
         else none) with
  | some n => (n != 0, s1)
  | none =>
    match s1.comboCfg.TryGetObsolete Scope.Common packageId with
    | some n => (n != 0, s1)
    | none => (false, s1)

def GetReleaseState (env : Env) (s : Store) (packageId : String) :
    RepositoryReleaseState × Store :=
  let s1 := LoadVarData env s
  match s1.comboCfg.TryGetReleaseState env.session.IsAdminMode packageId with
  | some str =>
    if str = "stable" then (RepositoryReleaseState.Stable, s1)
    else if str = "next" then (RepositoryReleaseState.Next, s1)
    else (RepositoryReleaseState.Unknown, s1)
  | none => (RepositoryReleaseState.Unknown, s1)

/-! ## File reference counts (section 4.4) -/

/-- One round of the loop of `IncrementFileRefCounts`: `++installedFileInfoTable[file].refCount`,
where `operator[]` of the map creates an entry with `refCount` 0 when there is none. -/
def incrementFileRefCount (t : InstalledFileInfoTable) (file : String) : InstalledFileInfoTable :=
  fun k => if k = file then some { refCount := ((t file).getD { refCount := 0 }).refCount + 1 }
    else t k

def IncrementFileRefCounts (s : Store) (files : List String) : Store :=
  { s with installedFileInfoTable := files.foldl incrementFileRefCount s.installedFileInfoTable }

/-! ## Definition of a package -/

def DefinePackage (env : Env) (s : Store) (packageInfo : PackageInfo) : Store :=
  let s0 := { s with packageTable := insert s.packageTable packageInfo }
  -- the entry `p.first` points to: the inserted one or the one that was there
  let id := packageInfo.id
  if env.session.IsMiKTeXDirect then
    -- installed from the start
    { s0 with packageTable := modify s0.packageTable id (fun e =>
        { e with isRemovable := false, isObsolete := false,
                 timeInstalled := packageInfo.timePackaged,
                 timeInstalledByAdmin := packageInfo.timePackaged,
                 timeInstalledByUser := packageInfo.timePackaged }) }
  else
    let r1 := IsRemovable env s0 id
    let s1 := { r1.2 with packageTable := modify r1.2.packageTable id (fun e =>
        { e with isRemovable := r1.1 }) }
    let r2 := IsObsolete env s1 id
    let s2 := { r2.2 with packageTable := modify r2.2.packageTable id (fun e =>
        { e with isObsolete := r2.1 }) }
    let r3 := GetTimeInstalled env s2 id
    let s3 := { r3.2 with packageTable := modify r3.2.packageTable id (fun e =>
        { e with timeInstalled := r3.1 }) }
    let r4 := GetCommonTimeInstalled env s3 id
    let s4 := { r4.2 with packageTable := modify r4.2.packageTable id (fun e =>
        { e with timeInstalledByAdmin := r4.1 }) }
    let r5 := GetUserTimeInstalled env s4 id
    let s5 := { r5.2 with packageTable := modify r5.2.packageTable id (fun e =>
        { e with timeInstalledByUser := r5.1 }) }
    match find s5.packageTable id with
    | some e =>
      if e.IsInstalled then
        let r6 := GetReleaseState env s5 id
        { r6.2 with packageTable := modify r6.2.packageTable id (fun e =>
            { e with releaseState := r6.1 }) }
      else s5
    | none => s5

/-! ## Load -/

/-- The target-system filter of `Load(Cfg&)`: true when the record is ignored. -/
def ignoredForOtherSystem (env : Env) (packageInfo : PackageInfo) : Bool :=
  env.IGNORE_OTHER_SYSTEMS &&
    (packageInfo.targetSystem != "" && !env.containsSystemTag packageInfo.targetSystem)

/-- One round of the first loop of `Load(Cfg&)`. -/
def loadKey (env : Env) (s : Store) (key : Manifest) : Store :=
  -- ignore redefinition
  if (find s.packageTable key.id).isSome then s
  else
    let packageInfo := GetPackageManifest key
    if ignoredForOtherSystem env packageInfo then s
    else
      -- insert into database
      let s1 := DefinePackage env s packageInfo
      -- increment file ref counts, if package is installed
      if packageInfo.IsInstalled then
        IncrementFileRefCounts
          (IncrementFileRefCounts (IncrementFileRefCounts s1 packageInfo.runFiles)
            packageInfo.docFiles)
          packageInfo.sourceFiles
      else s1

/-- The first loop of `Load(Cfg&)`. -/
def loadKeys (env : Env) (s : Store) (cfg : Cfg) : Store :=
  cfg.foldl (loadKey env) s

/-- State of the inner loop of the dependency pass: the table, `timeInstalledMin`
and `timeInstalledMax`. -/
structure DepState where
  tbl : PackageDefinitionTable
  timeInstalledMin : time_t
  timeInstalledMax : time_t

/-- One round of the inner loop of the dependency pass, for the dependency `req`
of the package `pkgId`. -/
def depReq (pkgId : String) (st : DepState) (req : String) : DepState :=
  match find st.tbl req with
  | none => st
  | some it3 =>
    { tbl := modify st.tbl req (fun e => { e with requiredBy := e.requiredBy ++ [pkgId] }),
      timeInstalledMin :=
        if it3.timeInstalled < st.timeInstalledMin then it3.timeInstalled else st.timeInstalledMin,
      timeInstalledMax :=
        if it3.timeInstalled > st.timeInstalledMax then it3.timeInstalled else st.timeInstalledMax }

/-- One round of the outer loop of the dependency pass, for the key `pkgId`. -/
def depPkg (tbl : PackageDefinitionTable) (pkgId : String) : PackageDefinitionTable :=
  match find tbl pkgId with
  | none => tbl
  | some pkg =>
    let st := pkg.requiredPackages.foldl (depReq pkgId)
      { tbl := tbl, timeInstalledMin := castTimeT 0xffffffffffffffff, timeInstalledMax := 0 }
    if st.timeInstalledMin > 0 then
      match find st.tbl pkgId with
      | none => st.tbl
      | some pkg1 =>
        if pkg1.IsPureContainer || (pkg1.IsInstalled && pkg1.timeInstalled < st.timeInstalledMax)
        then modify st.tbl pkgId (fun e => { e with timeInstalled := st.timeInstalledMax })
        else st.tbl
    else st.tbl

/-- The dependency pass of `Load(Cfg&)`. -/
def determineDependencies (tbl : PackageDefinitionTable) : PackageDefinitionTable :=
  (keys tbl).foldl depPkg tbl

def obsoleteId : String := "_miktex-obsolete"

def otherId : String := "_miktex-all-the-rest"

/-- The record `piObsolete` before the loop that fills it. -/
def piObsolete : PackageInfo :=
  { PackageInfo.default with
    id := obsoleteId, displayName := "Obsolete", title := "Obsolete packages",
    description := "Packages that were removed from the MiKTeX package repository." }

/-- The record `piOther` before the loop that fills it. -/
def piOther : PackageInfo :=
  { PackageInfo.default with
    id := otherId, displayName := "Uncategorized", title := "Uncategorized packages" }

/-- State of a container loop: the store and the container record being filled. -/
structure ContainerState where
  store : Store
  pi : PackageInfo

/-- One round of the loop that fills the "Obsolete" container. -/
def obsoleteMember (env : Env) (st : ContainerState) (pkgId : String) : ContainerState :=
  match find st.store.packageTable pkgId with
  | none => st
  | some pkg =>
    if !pkg.IsContained && !pkg.IsContainer then
      let r := IsObsolete env st.store pkgId
      if r.1 then
        { store := { r.2 with packageTable := modify r.2.packageTable pkgId (fun e =>
            { e with requiredBy := e.requiredBy ++ [st.pi.id] }) },
          pi := { st.pi with requiredPackages := st.pi.requiredPackages ++ [pkgId] } }
      else { st with store := r.2 }
    else st

/-- One round of the loop that fills the "Uncategorized" container. -/
def otherMember (st : ContainerState) (pkgId : String) : ContainerState :=
  match find st.store.packageTable pkgId with
  | none => st
  | some pkg =>
    if !pkg.IsContained && !pkg.IsContainer then
      { store := { st.store with packageTable := modify st.store.packageTable pkgId (fun e =>
          { e with requiredBy := e.requiredBy ++ [st.pi.id] }) },
        pi := { st.pi with requiredPackages := st.pi.requiredPackages ++ [pkgId] } }
    else st

/-- Creation of the "Obsolete" container. -/
def createObsolete (env : Env) (s : Store) : Store :=
  let st := (keys s.packageTable).foldl (obsoleteMember env) { store := s, pi := piObsolete }
  if !st.pi.requiredPackages.isEmpty then
    -- insert "Obsolete" into the database
    DefinePackage env st.store st.pi
  else st.store

/-- Creation of the "Uncategorized" container. -/
def createOther (env : Env) (s : Store) : Store :=
  let st := (keys s.packageTable).foldl otherMember { store := s, pi := piOther }
  if !st.pi.requiredPackages.isEmpty then
    -- insert "Other" into the database
    DefinePackage env st.store st.pi
  else st.store

/-- The member function `Load(Cfg& cfg)`. -/
def LoadCfg (env : Env) (s : Store) (cfg : Cfg) : Store :=
  let s1 := loadKeys env s cfg
  -- determine dependencies
  let s2 := { s1 with packageTable := determineDependencies s1.packageTable }
  createOther env (createObsolete env s2)

/-- The `Cfg` the member function `Load()` reads. -/
def readManifests (env : Env) : Cfg :=
  let cfg0 : Cfg := []
  let cfg1 :=
    if !env.session.IsAdminMode then
      match env.userManifestsIni with
      | some file => Cfg.Read false cfg0 file
      | none => cfg0
    else cfg0
  if env.session.IsAdminMode || !env.session.sameInstallRoots then
    match env.commonManifestsIni with
    | some file => Cfg.Read true cfg1 file
    | none => cfg1
  else cfg1

/-- The member function `Load()`. -/
def Load (env : Env) (s : Store) : Store :=
  if s.loadedAllPackageManifests then
    -- we do this once
    s
  else
    { LoadCfg env s (readManifests env) with loadedAllPackageManifests := true }

/-- The member function `LoadAllPackageManifests`; `file` is the content of
`packageManifestsPath`, `none` when the file does not exist. -/
def LoadAllPackageManifests (env : Env) (s : Store) (file : Option (List Manifest)) : Store :=
  match file with
  | none => s
  | some records =>
    { LoadCfg env s (Cfg.Read false [] records) with loadedAllPackageManifests := true }

def Clear (s : Store) : Store :=
  { packageTable := [], installedFileInfoTable := fun _ => none,
    loadedAllPackageManifests := false, comboCfg := s.comboCfg.Clear }

/-! ## Accessors and mutators -/

/-- The strict lookup `operator[]`. -/
def operatorIndex (env : Env) (s : Store) (packageId : String) : Except Error PackageInfo × Store :=
  let s1 := Load env s
  match find s1.packageTable packageId with
  | none => (Except.error (Error.NotFound packageId), s1)
  | some e => (Except.ok e, s1)

def TryGetPackage (env : Env) (s : Store) (packageId : String) : (Bool × PackageInfo) × Store :=
  let s1 := Load env s
  match find s1.packageTable packageId with
  | none => ((false, PackageInfo.default), s1)
  | some e => ((true, e), s1)

/-- An assignment `(*this)[packageId].field = value`: the strict lookup, then the
assignment through the reference it returns. -/
def assignField (env : Env) (s : Store) (packageId : String) (f : PackageInfo → PackageInfo) :
    Except Error Unit × Store :=
  match operatorIndex env s packageId with
  | (Except.error e, s1) => (Except.error e, s1)
  | (Except.ok _, s1) => (Except.ok (), { s1 with packageTable := modify s1.packageTable packageId f })

def SetTimeInstalled (env : Env) (s : Store) (packageId : String) (timeInstalled : time_t) :
    Except Error Unit × Store :=
  match assignField env s packageId (fun e => { e with timeInstalled := timeInstalled }) with
  | (Except.error e, s1) => (Except.error e, s1)
  | (Except.ok _, s1) =>
    match (if env.session.IsAdminMode
        then assignField env s1 packageId (fun e => { e with timeInstalledByAdmin := timeInstalled })
        else assignField env s1 packageId (fun e => { e with timeInstalledByUser := timeInstalled })) with
    | (Except.error e, s2) => (Except.error e, s2)
    | (Except.ok _, s2) =>
      if IsValidTimeT timeInstalled then
        (Except.ok (),
          { s2 with
            comboCfg :=
              s2.comboCfg.PutValue env.session.IsAdminMode packageId
                (CfgValue.TimeInstalled timeInstalled) })
      else
        (Except.ok (), { s2 with comboCfg := s2.comboCfg.DeleteKey env.session.IsAdminMode packageId })

def DeclareObsolete (env : Env) (s : Store) (packageId : String) : Except Error Unit × Store :=
  match assignField env s packageId (fun e => { e with isObsolete := true }) with
  | (Except.error e, s1) => (Except.error e, s1)
  | (Except.ok _, s1) =>
    (Except.ok (),
      { s1 with
        comboCfg := s1.comboCfg.PutValue env.session.IsAdminMode packageId (CfgValue.Obsolete 1) })

/-- The member function `IncrementFileRefCounts(const string& packageId)`. -/
def IncrementFileRefCountsOf (env : Env) (s : Store) (packageId : String) :
    Except Error Unit × Store :=
  match operatorIndex env s packageId with
  | (Except.error e, s1) => (Except.error e, s1)
  | (Except.ok package, s1) =>
    (Except.ok (),
      IncrementFileRefCounts
        (IncrementFileRefCounts (IncrementFileRefCounts s1 package.runFiles) package.docFiles)
        package.sourceFiles)

def GetFileRefCount (env : Env) (s : Store) (path : String) : Nat × Store :=
  let s1 := Load env s
  match s1.installedFileInfoTable path with
  | none => (0, s1)
  | some it => (it.refCount, s1)

def DecrementFileRefCount (env : Env) (s : Store) (path : String) : Except Error Nat × Store :=
  let s1 := Load env s
  match s1.installedFileInfoTable path with
  | none => (Except.error Error.InvalidState, s1)
  | some it =>
    if it.refCount = 0 then (Except.error Error.InvalidState, s1)
    else
      (Except.ok (it.refCount - 1),
        { s1 with installedFileInfoTable :=
            fun k => if k = path then some { refCount := it.refCount - 1 }
              else s1.installedFileInfoTable k })

/-! ## Concrete inputs used by the closed theorems -/

/-- A manifest with the given id, dependencies and run files, everything else empty. -/
def mkManifest (id : String) (requiredPackages : List String) (runFiles : List String) : Manifest :=
  { id := id, displayName := "", title := "", description := "",
    requiredPackages := requiredPackages, runFiles := runFiles, docFiles := [],
    sourceFiles := [], timePackaged := 5, targetSystem := "" }

/-- A scope record that holds only an install time. -/
def installedAt (t : time_t) : ScopedInstallRecord :=
  { TimeInstalled := some t, Obsolete := none, ReleaseState := none }

/-- A session that is neither in admin mode nor installed from the start, with
distinct install roots. -/
def userSession : Session :=
  { IsAdminMode := false, IsMiKTeXDirect := false, sameInstallRoots := false }

/-- The admin mode counterpart of `userSession`. -/
def adminSession : Session :=
  { IsAdminMode := true, IsMiKTeXDirect := false, sameInstallRoots := false }

/-- An environment with the given session, Common manifest file and scope files. -/
def mkEnv (session : Session) (commonManifests : List Manifest)
    (userPackages commonPackages : ScopeCfg) : Env :=
  { session := session, IGNORE_OTHER_SYSTEMS := true, containsSystemTag := fun _ => false,
    userManifestsIni := none, commonManifestsIni := some commonManifests,
    userPackagesIni := userPackages, commonPackagesIni := commonPackages }

/-- Scope file in which the package "foo" has the install time `t`. -/
def fooInstalledAt (t : time_t) : ScopeCfg :=
  fun k => if k = "foo" then some (installedAt t) else none

/-- Package "foo", User install time 100, Common install time 200. -/
def envFoo (session : Session) : Env :=
  mkEnv session [mkManifest "foo" [] ["foo.sty"]] (fooInstalledAt 100) (fooInstalledAt 200)

/-! ## Table-level view of Load

The functions below say what the member functions above do to the package table,
given the content `c` of the (loaded) scoped store.  They are used to reason about
`Load`; each is connected to the stateful function by a lemma. -/

/-- The scoped store once `LoadVarData` has run. -/
def loadedCfg (env : Env) (c : ComboCfg) : ComboCfg :=
  if c.loaded then c
  else ComboCfg.Load (if env.session.IsAdminMode then none else some env.userPackagesIni)
    env.commonPackagesIni

/-- Value of `GetUserTimeInstalled` on the scoped store `c`. -/
def userTimeInstalledIn (c : ComboCfg) (id : String) : time_t :=
  (c.TryGetTimeInstalled Scope.User id).getD InvalidTimeT

/-- Value of `GetCommonTimeInstalled` on the scoped store `c`. -/
def commonTimeInstalledIn (c : ComboCfg) (id : String) : time_t :=
  (c.TryGetTimeInstalled Scope.Common id).getD InvalidTimeT

/-- Value of `GetTimeInstalled` on the scoped store `c`. -/
def timeInstalledIn (admin : Bool) (c : ComboCfg) (id : String) : time_t :=
  match (if !admin then c.TryGetTimeInstalled Scope.User id else none) with
  | some t => t
  | none => (c.TryGetTimeInstalled Scope.Common id).getD InvalidTimeT

/-- Value of `IsRemovable` on the scoped store `c`. -/
def isRemovableIn (session : Session) (c : ComboCfg) (id : String) : Bool :=
  if session.IsAdminMode then IsValidTimeT (commonTimeInstalledIn c id)
  else if session.sameInstallRoots then IsValidTimeT (timeInstalledIn session.IsAdminMode c id)
  else IsValidTimeT (userTimeInstalledIn c id)

/-- Value of `IsObsolete` on the scoped store `c`. -/
def isObsoleteIn (admin : Bool) (c : ComboCfg) (id : String) : Bool :=
  match (if !admin then c.TryGetObsolete Scope.User id else none) with
  | some n => n != 0
  | none =>
    match c.TryGetObsolete Scope.Common id with
    | some n => n != 0
    | none => false

/-- Value of `GetReleaseState` on the scoped store `c`. -/
def releaseStateIn (admin : Bool) (c : ComboCfg) (id : String) : RepositoryReleaseState :=
  match c.TryGetReleaseState admin id with
  | some str =>
    if str = "stable" then RepositoryReleaseState.Stable
    else if str = "next" then RepositoryReleaseState.Next
    else RepositoryReleaseState.Unknown
  | none => RepositoryReleaseState.Unknown

/-- The assignments of `DefinePackage` to the entry `e` of `packageInfo.id`. -/
def resolve (env : Env) (c : ComboCfg) (packageInfo : PackageInfo) (e : PackageInfo) :
    PackageInfo :=
  if env.session.IsMiKTeXDirect then
    { e with isRemovable := false, isObsolete := false,
             timeInstalled := packageInfo.timePackaged,
             timeInstalledByAdmin := packageInfo.timePackaged,
             timeInstalledByUser := packageInfo.timePackaged }
  else
    { e with isRemovable := isRemovableIn env.session c packageInfo.id,
             isObsolete := isObsoleteIn env.session.IsAdminMode c packageInfo.id,
             timeInstalled := timeInstalledIn env.session.IsAdminMode c packageInfo.id,
             timeInstalledByAdmin := commonTimeInstalledIn c packageInfo.id,
             timeInstalledByUser := userTimeInstalledIn c packageInfo.id,
             releaseState :=
               if IsValidTimeT (timeInstalledIn env.session.IsAdminMode c packageInfo.id)
               then releaseStateIn env.session.IsAdminMode c packageInfo.id
               else e.releaseState }

/-- What `DefinePackage` does to the table. -/
def definePackageTbl (env : Env) (c : ComboCfg) (tbl : PackageDefinitionTable)
    (packageInfo : PackageInfo) : PackageDefinitionTable :=
  modify (insert tbl packageInfo) packageInfo.id (resolve env c packageInfo)

/-- What one round of the first loop of `Load(Cfg&)` does to the table. -/
def loadKeyTbl (env : Env) (c : ComboCfg) (tbl : PackageDefinitionTable) (key : Manifest) :
    PackageDefinitionTable :=
  if (find tbl key.id).isSome then tbl
  else if ignoredForOtherSystem env (GetPackageManifest key) then tbl
  else definePackageTbl env c tbl (GetPackageManifest key)

/-- Appending a container id to `requiredBy`. -/
def pushRequiredBy (cid : String) (e : PackageInfo) : PackageInfo :=
  { e with requiredBy := e.requiredBy ++ [cid] }

/-- One round of a container loop on the table and the member list, for the
membership test `cond` and the container id `cid`. -/
def memberStep (cond : PackageInfo → Bool) (cid : String)
    (st : PackageDefinitionTable × List String) (pkgId : String) :
    PackageDefinitionTable × List String :=
  match find st.1 pkgId with
  | none => st
  | some pkg =>
    if cond pkg then (modify st.1 pkgId (pushRequiredBy cid), st.2 ++ [pkgId]) else st

/-- Membership test of the "Obsolete" container. -/
def obsoleteCond (env : Env) (c : ComboCfg) (e : PackageInfo) : Bool :=
  (!e.IsContained && !e.IsContainer) && isObsoleteIn env.session.IsAdminMode c e.id

/-- Membership test of the "Uncategorized" container. -/
def otherCond (e : PackageInfo) : Bool :=
  !e.IsContained && !e.IsContainer

/-- What the creation of a container does to the table. -/
def createContainerTbl (env : Env) (c : ComboCfg) (cond : PackageInfo → Bool) (pi : PackageInfo)
    (tbl : PackageDefinitionTable) : PackageDefinitionTable :=
  let st := (keys tbl).foldl (memberStep cond pi.id) (tbl, pi.requiredPackages)
  if !st.2.isEmpty then definePackageTbl env c st.1 { pi with requiredPackages := st.2 }
  else st.1

/-- The table when the synthesis of the containers starts: after the merge loop and
the dependency pass. -/
def linkedTbl (env : Env) (c : ComboCfg) (tbl : PackageDefinitionTable) (cfg : Cfg) :
    PackageDefinitionTable :=
  determineDependencies (cfg.foldl (loadKeyTbl env c) tbl)

/-- What `Load(Cfg&)` does to the table. -/
def LoadCfgTbl (env : Env) (c : ComboCfg) (tbl : PackageDefinitionTable) (cfg : Cfg) :
    PackageDefinitionTable :=
  createContainerTbl env c otherCond piOther
    (createContainerTbl env c (obsoleteCond env c) piObsolete (linkedTbl env c tbl cfg))

/-- The manifest data of a table entry. -/
def manifestOf (e : PackageInfo) : Manifest :=
  { id := e.id, displayName := e.displayName, title := e.title, description := e.description,
    requiredPackages := e.requiredPackages, runFiles := e.runFiles, docFiles := e.docFiles,
    sourceFiles := e.sourceFiles, timePackaged := e.timePackaged, targetSystem := e.targetSystem }

/-- Package "base" with the run file "a.sty", installed in the Common scope at time 100. -/
def envBase : Env :=
  mkEnv userSession [mkManifest "base" [] ["a.sty"]] ComboCfg.emptyScope
    (fun k => if k = "base" then some (installedAt 100) else none)

/-- The scoped store `c2` is `c` or `c` after its lazy load. -/
def cfgStep (env : Env) (c c2 : ComboCfg) : Prop :=
  c2 = c ∨ c2 = loadedCfg env c

/-- The store `s2` comes from `s` by replacing the package table by `tbl` and possibly
loading the scoped store; nothing else differs. -/
def TableStep (env : Env) (s s2 : Store) (tbl : PackageDefinitionTable) : Prop :=
  s2.packageTable = tbl ∧
  s2.installedFileInfoTable = s.installedFileInfoTable ∧
  s2.loadedAllPackageManifests = s.loadedAllPackageManifests ∧
  cfgStep env s.comboCfg s2.comboCfg

/-- An entry with its install time blanked: the dependency pass is described up to
the install times it propagates. -/
def noTime (e : PackageInfo) : PackageInfo := { e with timeInstalled := 0 }

/-- The dependencies the table records for the key `k` (none for an absent key). -/
def reqsOf (tbl : PackageDefinitionTable) (k : String) : List String :=
  ((find tbl k).map (fun e => e.requiredPackages)).getD []

/-- The back-edges the package `p` with dependencies `reqs` gives to the entry `e`:
one per occurrence of `e.id` in `reqs`. -/
def addRB (reqs : List String) (p : String) (e : PackageInfo) : PackageInfo :=
  { e with requiredBy := e.requiredBy ++ List.replicate (reqs.count e.id) p }

/-- The back-edges to the package `q` from the packages `ks`, in order, where `R`
gives the dependencies of a package. -/
def rbOf (R : String → List String) (ks : List String) (q : String) : List String :=
  ks.flatMap (fun p => List.replicate ((R p).count q) p)

/-- The back-edges the packages `ks` give to the entry `e`. -/
def addRBs (R : String → List String) (ks : List String) (e : PackageInfo) : PackageInfo :=
  { e with requiredBy := e.requiredBy ++ rbOf R ks e.id }

/-- The record passes the target-system filter of `Load(Cfg&)`. -/
def accepted (env : Env) (m : Manifest) : Bool :=
  !ignoredForOtherSystem env (GetPackageManifest m)

/-- The manifests the first loop of `Load(Cfg&)` defines, in table order: a record is
taken unless its id is already defined or the target-system filter ignores it. -/
def mergeStep (env : Env) (acc : List Manifest) (key : Manifest) : List Manifest :=
  if key.id ∈ acc.map (fun m => m.id) ∨ accepted env key = false then acc else acc ++ [key]

/-- The manifests defined after the records `cfg`, starting from `acc`. -/
def merged (env : Env) (acc : List Manifest) (cfg : Cfg) : List Manifest :=
  cfg.foldl (mergeStep env) acc

/-- The table after a container loop with membership test `cond` and container id `cid`. -/
def markMembers (cond : PackageInfo → Bool) (cid : String) (tbl : PackageDefinitionTable) :
    PackageDefinitionTable :=
  tbl.map (fun e => if cond e = true then pushRequiredBy cid e else e)

/-- The member ids a container loop gathers. -/
def memberIds (cond : PackageInfo → Bool) (tbl : PackageDefinitionTable) : List String :=
  keys (tbl.filter cond)

/-- Dependency symmetry of a table: the occurrences of `P.id` in `Q.requiredBy` are as
many as the occurrences of `Q.id` in `P.requiredPackages`, for all entries `P`, `Q`. -/
def Sym (tbl : PackageDefinitionTable) : Prop :=
  ∀ P ∈ tbl, ∀ Q ∈ tbl, Q.requiredBy.count P.id = P.requiredPackages.count Q.id

/-- Every `requiredBy` entry of the table names a package of the table. -/
def RBclosed (tbl : PackageDefinitionTable) : Prop :=
  ∀ Q ∈ tbl, ∀ x ∈ Q.requiredBy, x ∈ keys tbl

/-- A table with unique keys whose `requiredBy` lists mirror its `requiredPackages`. -/
def Linked (tbl : PackageDefinitionTable) : Prop :=
  (keys tbl).Nodup ∧ Sym tbl ∧ RBclosed tbl

/-- The id `cid` is not used by the table: neither as a key nor in a dependency list
nor in a `requiredBy` list. -/
def Fresh (cid : String) (tbl : PackageDefinitionTable) : Prop :=
  cid ∉ keys tbl ∧ (∀ P ∈ tbl, cid ∉ P.requiredPackages) ∧ (∀ Q ∈ tbl, cid ∉ Q.requiredBy)

/-- The container record as `DefinePackage` stores it. -/
def containerEntry (env : Env) (c : ComboCfg) (pi : PackageInfo) (members : List String) :
    PackageInfo :=
  resolve env c { pi with requiredPackages := members } { pi with requiredPackages := members }

/-- The manifest record uses neither of the two reserved container ids, as its own id
or as a dependency. -/
abbrev reservedFree (m : Manifest) : Prop :=
  m.id ≠ obsoleteId ∧ m.id ≠ otherId ∧
    obsoleteId ∉ m.requiredPackages ∧ otherId ∉ m.requiredPackages

/-- A package that lists the reserved id of the "Uncategorized" container as a
dependency, next to an ordinary leaf package. -/
def envReservedDep : Env :=
  mkEnv userSession [mkManifest "a" [] ["a.sty"], mkManifest "p" [otherId] ["p.sty"]]
    ComboCfg.emptyScope ComboCfg.emptyScope

/-- The packages "base" and "ext" of the end-to-end example of the spec: "ext" requires
"base"; nothing is installed. -/
def envBaseExt : Env :=
  mkEnv userSession [mkManifest "base" [] ["a.sty"], mkManifest "ext" ["base"] ["b.sty"]]
    ComboCfg.emptyScope ComboCfg.emptyScope

/-- The store when the synthesis of the containers starts: `Load(Cfg&)` after its first
loop and the dependency pass. -/
def linkedStore (env : Env) (s : Store) (cfg : Cfg) : Store :=
  { loadKeys env s cfg with
    packageTable := determineDependencies (loadKeys env s cfg).packageTable }

/-- The membership test of the "Obsolete" container as the loop evaluates it on the
entry `P`, with the scoped store of the store `s`. -/
def isObsoleteMember (env : Env) (s : Store) (P : PackageInfo) : Bool :=
  (!P.IsContained && !P.IsContainer) && (IsObsolete env s P.id).1

/-- Scope file in which the package "a" is flagged obsolete. -/
def obsoleteA : ScopeCfg :=
  fun k => if k = "a" then some { TimeInstalled := none, Obsolete := some 1, ReleaseState := none }
    else none

/-- Leaf packages "a" (flagged obsolete in the Common scope) and "b" (not flagged). -/
def envObsoleteLeaf : Env :=
  mkEnv userSession [mkManifest "a" [] ["a.sty"], mkManifest "b" [] ["b.sty"]]
    ComboCfg.emptyScope obsoleteA

/-- The environment `envObsoleteLeaf` in a session that is installed from the start. -/
def envObsoleteDirect : Env :=
  mkEnv { IsAdminMode := false, IsMiKTeXDirect := true, sameInstallRoots := false }
    [mkManifest "a" [] ["a.sty"], mkManifest "b" [] ["b.sty"]] ComboCfg.emptyScope obsoleteA

/-- A manifest that itself defines a package with the reserved id of the "Obsolete"
container; nothing is flagged obsolete. -/
def envReservedId : Env :=
  mkEnv userSession [mkManifest obsoleteId [] ["o.sty"], mkManifest "b" [] ["b.sty"]]
    ComboCfg.emptyScope ComboCfg.emptyScope

/-- A pure container "c" that requires the leaf package "q"; "q" is installed in the
Common scope at time 100, "c" has no install record. -/
def envContainer : Env :=
  mkEnv userSession [mkManifest "c" ["q"] [], mkManifest "q" [] ["q.sty"]]
    ComboCfg.emptyScope (fun k => if k = "q" then some (installedAt 100) else none)

/-- The store after the creation of the "Obsolete" container, when the loop of the
"Uncategorized" container starts. -/
def obsoleteStore (env : Env) (s : Store) (cfg : Cfg) : Store :=
  createObsolete env (linkedStore env s cfg)

/-- A manifest that itself defines a package with the reserved id of the
"Uncategorized" container, next to an ordinary leaf package. -/
def envReservedOther : Env :=
  mkEnv userSession [mkManifest otherId [] ["x.sty"], mkManifest "b" [] ["b.sty"]]
    ComboCfg.emptyScope ComboCfg.emptyScope

/-- The per-scope install times cached in the entry `e` are those the scoped store `c`
holds for its id. -/
def cachedAgree (c : ComboCfg) (e : PackageInfo) : Prop :=
  e.timeInstalledByUser = userTimeInstalledIn c e.id ∧
  e.timeInstalledByAdmin = commonTimeInstalledIn c e.id

/-- The environment `envFoo` in a session that is installed from the start. -/
def envFooDirect : Env :=
  envFoo { IsAdminMode := false, IsMiKTeXDirect := true, sameInstallRoots := false }

@[simp] theorem LoadVarData_packageTable (env : Env) (s : Store) :
    (LoadVarData env s).packageTable = s.packageTable := by
  unfold LoadVarData; split <;> rfl

@[simp] theorem LoadVarData_installedFileInfoTable (env : Env) (s : Store) :
    (LoadVarData env s).installedFileInfoTable = s.installedFileInfoTable := by
  unfold LoadVarData; split <;> rfl

@[simp] theorem LoadVarData_loadedAll (env : Env) (s : Store) :
    (LoadVarData env s).loadedAllPackageManifests = s.loadedAllPackageManifests := by
  unfold LoadVarData; split <;> rfl

@[simp] theorem LoadVarData_loaded (env : Env) (s : Store) :
    (LoadVarData env s).comboCfg.loaded = true := by
  unfold LoadVarData; split
  · assumption
  · rfl

theorem LoadVarData_of_loaded (env : Env) (s : Store) (h : s.comboCfg.loaded = true) :
    LoadVarData env s = s := by
  unfold LoadVarData; simp [h]

@[simp] theorem LoadVarData_idem (env : Env) (s : Store) :
    LoadVarData env (LoadVarData env s) = LoadVarData env s :=
  LoadVarData_of_loaded env _ (LoadVarData_loaded env s)

@[simp] theorem GetUserTimeInstalled_store (env : Env) (s : Store) (id : String) :
    (GetUserTimeInstalled env s id).2 = LoadVarData env s := by
  unfold GetUserTimeInstalled; simp only []; split <;> rfl

@[simp] theorem GetCommonTimeInstalled_store (env : Env) (s : Store) (id : String) :
    (GetCommonTimeInstalled env s id).2 = LoadVarData env s := by
  unfold GetCommonTimeInstalled; simp only []; split <;> rfl

@[simp] theorem GetTimeInstalled_store (env : Env) (s : Store) (id : String) :
    (GetTimeInstalled env s id).2 = LoadVarData env s := by
  unfold GetTimeInstalled; simp only []
  split
  · rfl
  · split <;> rfl

@[simp] theorem IsObsolete_store (env : Env) (s : Store) (id : String) :
    (IsObsolete env s id).2 = LoadVarData env s := by
  unfold IsObsolete; simp only []
  split
  · rfl
  · split <;> rfl

@[simp] theorem GetReleaseState_store (env : Env) (s : Store) (id : String) :
    (GetReleaseState env s id).2 = LoadVarData env s := by
  unfold GetReleaseState; simp only []
  split
  · split
    · rfl
    · split <;> rfl
  · rfl

@[simp] theorem IsRemovable_store (env : Env) (s : Store) (id : String) :
    (IsRemovable env s id).2 = LoadVarData env s := by
  unfold IsRemovable; simp only []
  split
  · simp
  · split <;> simp

/-! ## The one-shot guard of Load -/

@[simp] theorem Load_loadedAll (env : Env) (s : Store) :
    (Load env s).loadedAllPackageManifests = true := by
  unfold Load; split
  · assumption
  · rfl

theorem Load_of_loaded (env : Env) (s : Store) (h : s.loadedAllPackageManifests = true) :
    Load env s = s := by
  unfold Load; simp [h]

@[simp] theorem Load_Load (env env2 : Env) (s : Store) :
    Load env2 (Load env s) = Load env s :=
  Load_of_loaded env2 _ (Load_loadedAll env s)

/-! ## Table lookups -/

theorem find_eq_none_iff (tbl : PackageDefinitionTable) (id : String) :
    find tbl id = none ↔ id ∉ keys tbl := by
  unfold find keys
  rw [List.find?_eq_none]
  simp only [decide_eq_true_eq, List.mem_map, not_exists, not_and]

theorem find_some_id {tbl : PackageDefinitionTable} {id : String} {e : PackageInfo}
    (h : find tbl id = some e) : e.id = id := by
  unfold find at h
  simpa using List.find?_some h

theorem find_some_mem {tbl : PackageDefinitionTable} {id : String} {e : PackageInfo}
    (h : find tbl id = some e) : e ∈ tbl := by
  unfold find at h
  exact List.mem_of_find?_eq_some h

theorem find_isSome_iff (tbl : PackageDefinitionTable) (id : String) :
    (find tbl id).isSome = true ↔ id ∈ keys tbl := by
  rw [← not_iff_not, ← find_eq_none_iff]
  cases find tbl id <;> simp

/-! ## C4: GetTimeInstalled -/

/-- C4. `GetTimeInstalled(id)` returns the User-scope `TimeInstalled` when the session
is not in admin mode and the User scope has one; otherwise the Common-scope value when
there is one; otherwise the invalid sentinel.  The scopes are those of the lazily loaded
store.  With User 100 and Common 200 on file it returns 100 outside admin mode and 200 in
admin mode. -/
theorem GetTimeInstalled_contract (env : Env) (s : Store) (id : String) :
    (∀ t, env.session.IsAdminMode = false →
        (LoadVarData env s).comboCfg.TryGetTimeInstalled Scope.User id = some t →
        (GetTimeInstalled env s id).1 = t) ∧
    (∀ t, (env.session.IsAdminMode = true ∨
          (LoadVarData env s).comboCfg.TryGetTimeInstalled Scope.User id = none) →
        (LoadVarData env s).comboCfg.TryGetTimeInstalled Scope.Common id = some t →
        (GetTimeInstalled env s id).1 = t) ∧
    ((env.session.IsAdminMode = true ∨
          (LoadVarData env s).comboCfg.TryGetTimeInstalled Scope.User id = none) →
        (LoadVarData env s).comboCfg.TryGetTimeInstalled Scope.Common id = none →
        (GetTimeInstalled env s id).1 = InvalidTimeT) ∧
    (GetTimeInstalled (envFoo userSession) Store.empty "foo").1 = 100 ∧
    (GetTimeInstalled (envFoo adminSession) Store.empty "foo").1 = 200 := by
  refine ⟨?_, ?_, ?_, by decide, by decide⟩
  · intro t ha hu
    unfold GetTimeInstalled
    simp [ha, hu]
  · intro t h hc
    unfold GetTimeInstalled
    rcases h with ha | hu
    · simp [ha, hc]
    · simp [hu, hc]
  · intro h hc
    unfold GetTimeInstalled
    rcases h with ha | hu
    · simp [ha, hc]
    · simp [hu, hc]

/-! ## C5: IsRemovable -/

/-- C5. `IsRemovable(id)`: in admin mode it is the validity of the Common-scope install
time; outside admin mode with identical install roots the validity of
`GetTimeInstalled(id)`; outside admin mode with distinct roots the validity of the
User-scope install time, so that a package installed only in the Common scope is not
removable by a non-admin user. -/
theorem IsRemovable_contract (env : Env) (s : Store) (id : String) :
    (env.session.IsAdminMode = true →
        (IsRemovable env s id).1 = IsValidTimeT (GetCommonTimeInstalled env s id).1) ∧
    (env.session.IsAdminMode = false → env.session.sameInstallRoots = true →
        (IsRemovable env s id).1 = IsValidTimeT (GetTimeInstalled env s id).1) ∧
    (env.session.IsAdminMode = false → env.session.sameInstallRoots = false →
        (IsRemovable env s id).1 = IsValidTimeT (GetUserTimeInstalled env s id).1) ∧
    (env.session.IsAdminMode = false → env.session.sameInstallRoots = false →
        (LoadVarData env s).comboCfg.TryGetTimeInstalled Scope.User id = none →
        (IsRemovable env s id).1 = false) := by
  refine ⟨?_, ?_, ?_, ?_⟩
  · intro ha
    unfold IsRemovable GetCommonTimeInstalled
    simp [ha]
  · intro ha hr
    unfold IsRemovable GetTimeInstalled
    simp [ha, hr]
  · intro ha hr
    unfold IsRemovable GetUserTimeInstalled
    simp [ha, hr]
  · intro ha hr hu
    unfold IsRemovable GetUserTimeInstalled
    simp [ha, hr, hu, IsValidTimeT]

/-! ## C8: Load is idempotent -/

/-- C8. `Load()` is idempotent: after one invocation any number of further
invocations, directly or through an accessor that calls it, and whatever the manifest
files or the session then are, leave the whole store (package table with every field,
ownership table, scoped store) exactly as the first invocation left it. -/
theorem Load_idempotent (env env2 : Env) (s : Store) (n : Nat) (id path : String) :
    (Load env2)^[n] (Load env s) = Load env s ∧
    (TryGetPackage env2 (Load env s) id).2 = Load env s ∧
    (operatorIndex env2 (Load env s) id).2 = Load env s ∧
    (GetFileRefCount env2 (Load env s) path).2 = Load env s := by
  refine ⟨?_, ?_, ?_, ?_⟩
  · induction n with
    | zero => rfl
    | succ k ih => rw [Function.iterate_succ_apply, Load_Load, ih]
  · unfold TryGetPackage; simp only [Load_Load]; split <;> rfl
  · unfold operatorIndex; simp only [Load_Load]; split <;> rfl
  · unfold GetFileRefCount; simp only [Load_Load]; split <;> rfl

/-! ## C10: strict lookup and TryGetPackage -/

/-- C10. The strict lookup fails, with NotFound, exactly when the id is absent from the
(loaded) table; `TryGetPackage` has no failure at all, reports `false` exactly when the
id is absent, and for a present id reports `true` with the record the strict lookup
returns. -/
theorem lookup_contract (env : Env) (s : Store) (id : String) :
    ((operatorIndex env s id).1 = Except.error (Error.NotFound id) ↔
        id ∉ keys (Load env s).packageTable) ∧
    ((∃ e, (operatorIndex env s id).1 = Except.ok e) ↔ id ∈ keys (Load env s).packageTable) ∧
    ((TryGetPackage env s id).1.1 = false ↔ id ∉ keys (Load env s).packageTable) ∧
    ((TryGetPackage env s id).1.1 = true ↔ id ∈ keys (Load env s).packageTable) ∧
    (id ∈ keys (Load env s).packageTable →
        (operatorIndex env s id).1 = Except.ok (TryGetPackage env s id).1.2 ∧
        find (Load env s).packageTable id = some (TryGetPackage env s id).1.2) := by
  unfold operatorIndex TryGetPackage
  cases h : find (Load env s).packageTable id with
  | none =>
    have hn := (find_eq_none_iff _ _).1 h
    simp [hn, h]
  | some e =>
    have hm : id ∈ keys (Load env s).packageTable := by
      rw [← find_isSome_iff, h]; rfl
    simp [hm, h]

/-! ## Values of the resolver on the loaded scoped store -/

theorem LoadVarData_eq (env : Env) (s : Store) :
    LoadVarData env s = { s with comboCfg := loadedCfg env s.comboCfg } := by
  unfold LoadVarData loadedCfg
  split <;> rfl

@[simp] theorem loadedCfg_idem (env : Env) (c : ComboCfg) :
    loadedCfg env (loadedCfg env c) = loadedCfg env c := by
  unfold loadedCfg
  split <;> simp_all [ComboCfg.Load]

theorem loadedCfg_of_loaded (env : Env) (c : ComboCfg) (h : c.loaded = true) :
    loadedCfg env c = c := by
  unfold loadedCfg; simp [h]

@[simp] theorem LoadVarData_comboCfg (env : Env) (s : Store) :
    (LoadVarData env s).comboCfg = loadedCfg env s.comboCfg := by
  rw [LoadVarData_eq]

theorem GetUserTimeInstalled_val (env : Env) (s : Store) (id : String) :
    (GetUserTimeInstalled env s id).1 = userTimeInstalledIn (loadedCfg env s.comboCfg) id := by
  unfold GetUserTimeInstalled userTimeInstalledIn
  simp only [LoadVarData_comboCfg]
  split <;> simp_all

theorem GetCommonTimeInstalled_val (env : Env) (s : Store) (id : String) :
    (GetCommonTimeInstalled env s id).1 = commonTimeInstalledIn (loadedCfg env s.comboCfg) id := by
  unfold GetCommonTimeInstalled commonTimeInstalledIn
  simp only [LoadVarData_comboCfg]
  split <;> simp_all

theorem GetTimeInstalled_val (env : Env) (s : Store) (id : String) :
    (GetTimeInstalled env s id).1
      = timeInstalledIn env.session.IsAdminMode (loadedCfg env s.comboCfg) id := by
  unfold GetTimeInstalled timeInstalledIn
  simp only [LoadVarData_comboCfg]
  split
  · rfl
  · split <;> simp_all

theorem IsObsolete_val (env : Env) (s : Store) (id : String) :
    (IsObsolete env s id).1
      = isObsoleteIn env.session.IsAdminMode (loadedCfg env s.comboCfg) id := by
  unfold IsObsolete isObsoleteIn
  simp only [LoadVarData_comboCfg]
  split
  · rfl
  · split <;> rfl

theorem GetReleaseState_val (env : Env) (s : Store) (id : String) :
    (GetReleaseState env s id).1
      = releaseStateIn env.session.IsAdminMode (loadedCfg env s.comboCfg) id := by
  unfold GetReleaseState releaseStateIn
  simp only [LoadVarData_comboCfg]
  split
  · split
    · rfl
    · split <;> rfl
  · rfl

theorem IsRemovable_val (env : Env) (s : Store) (id : String) :
    (IsRemovable env s id).1 = isRemovableIn env.session (loadedCfg env s.comboCfg) id := by
  unfold IsRemovable isRemovableIn
  simp only [GetCommonTimeInstalled_val, GetTimeInstalled_val, GetUserTimeInstalled_val,
    LoadVarData_comboCfg, loadedCfg_idem]
  split
  · rfl
  · split <;> rfl

/-! ## Lemmas about the table primitives -/

@[simp] theorem keys_nil : keys ([] : PackageDefinitionTable) = [] := rfl

@[simp] theorem keys_append (a b : PackageDefinitionTable) : keys (a ++ b) = keys a ++ keys b := by
  simp [keys]

theorem keys_map (tbl : PackageDefinitionTable) (h : PackageInfo → PackageInfo)
    (hid : ∀ e, (h e).id = e.id) : keys (tbl.map h) = keys tbl := by
  simp [keys, List.map_map, Function.comp_def, hid]

theorem find_map (tbl : PackageDefinitionTable) (h : PackageInfo → PackageInfo)
    (hid : ∀ e, (h e).id = e.id) (id : String) :
    find (tbl.map h) id = (find tbl id).map h := by
  induction tbl with
  | nil => rfl
  | cons a t ih =>
    unfold find at ih ⊢
    simp only [List.map_cons, List.find?_cons, hid]
    by_cases ha : a.id = id
    · simp [ha]
    · simp [ha, ih]

theorem keys_modify (tbl : PackageDefinitionTable) (k : String) (f : PackageInfo → PackageInfo)
    (hid : ∀ e, (f e).id = e.id) : keys (modify tbl k f) = keys tbl := by
  unfold modify
  apply keys_map
  intro e; split <;> simp [hid]

theorem find_modify (tbl : PackageDefinitionTable) (k : String) (f : PackageInfo → PackageInfo)
    (hid : ∀ e, (f e).id = e.id) (id : String) :
    find (modify tbl k f) id = if id = k then (find tbl id).map f else find tbl id := by
  unfold modify
  rw [find_map _ _ (by intro e; split <;> simp [hid])]
  cases h : find tbl id with
  | none => simp
  | some e =>
    have he := find_some_id h
    by_cases hk : id = k
    · simp [hk, he ▸ hk]
    · simp [hk, he ▸ hk]

theorem modify_modify (tbl : PackageDefinitionTable) (k : String)
    (f g : PackageInfo → PackageInfo) (hid : ∀ e, (f e).id = e.id) :
    modify (modify tbl k f) k g = modify tbl k (fun e => g (f e)) := by
  unfold modify
  rw [List.map_map]
  apply List.map_congr_left
  intro e _
  by_cases he : e.id = k
  · simp [he, hid]
  · simp [he]

theorem modify_absent (tbl : PackageDefinitionTable) (k : String) (f : PackageInfo → PackageInfo)
    (h : k ∉ keys tbl) : modify tbl k f = tbl := by
  unfold modify
  conv => rhs; rw [← List.map_id tbl]
  apply List.map_congr_left
  intro e he
  have : e.id ≠ k := by
    intro hk; apply h; rw [← hk]; exact List.mem_map_of_mem _ he
  simp [this]

theorem find_append (a b : PackageDefinitionTable) (id : String) :
    find (a ++ b) id = (find a id).or (find b id) := by
  unfold find
  rw [List.find?_append]

theorem find_insert_self (tbl : PackageDefinitionTable) (p : PackageInfo) :
    find (insert tbl p) p.id = some ((find tbl p.id).getD p) := by
  unfold insert
  cases h : find tbl p.id with
  | some e => simp [h]
  | none =>
    rw [find_append, h]
    simp [find]

theorem keys_insert (tbl : PackageDefinitionTable) (p : PackageInfo) :
    keys (insert tbl p) = if p.id ∈ keys tbl then keys tbl else keys tbl ++ [p.id] := by
  unfold insert
  cases h : find tbl p.id with
  | some e =>
    have : p.id ∈ keys tbl := by rw [← find_isSome_iff, h]; rfl
    simp [this]
  | none =>
    have := (find_eq_none_iff _ _).1 h
    rw [if_neg this]
    simp [keys]

theorem insert_of_absent (tbl : PackageDefinitionTable) (p : PackageInfo) (h : p.id ∉ keys tbl) :
    insert tbl p = tbl ++ [p] := by
  unfold insert
  rw [(find_eq_none_iff _ _).2 h]

theorem insert_of_present (tbl : PackageDefinitionTable) (p : PackageInfo) (h : p.id ∈ keys tbl) :
    insert tbl p = tbl := by
  unfold insert
  have := (find_isSome_iff tbl p.id).2 h
  cases hf : find tbl p.id with
  | some e => rfl
  | none => simp [hf] at this

theorem find_of_mem_nodup {tbl : PackageDefinitionTable} (hn : (keys tbl).Nodup)
    {e : PackageInfo} (he : e ∈ tbl) : find tbl e.id = some e := by
  induction tbl with
  | nil => cases he
  | cons a t ih =>
    simp only [keys, List.map_cons, List.nodup_cons] at hn
    unfold find
    rw [List.find?_cons]
    rcases List.mem_cons.1 he with h | h
    · subst h; simp
    · have hne : a.id ≠ e.id := by
        intro heq; apply hn.1; rw [heq]; exact List.mem_map_of_mem _ h
      simp only [hne, decide_False]
      exact ih hn.2 h

/-! ## Closed form of DefinePackage -/

@[simp] theorem resolve_id (env : Env) (c : ComboCfg) (p e : PackageInfo) :
    (resolve env c p e).id = e.id := by
  unfold resolve; split <;> rfl

theorem modify_congr (tbl : PackageDefinitionTable) (k : String) (f g : PackageInfo → PackageInfo)
    (h : ∀ e, e.id = k → f e = g e) : modify tbl k f = modify tbl k g := by
  unfold modify
  apply List.map_congr_left
  intro e _
  by_cases he : e.id = k
  · simp [he, h e he]
  · simp [he]

theorem DefinePackage_eq (env : Env) (s : Store) (p : PackageInfo) :
    DefinePackage env s p =
      { packageTable := definePackageTbl env (loadedCfg env s.comboCfg) s.packageTable p,
        installedFileInfoTable := s.installedFileInfoTable,
        loadedAllPackageManifests := s.loadedAllPackageManifests,
        comboCfg := if env.session.IsMiKTeXDirect then s.comboCfg
          else loadedCfg env s.comboCfg } := by
  unfold DefinePackage definePackageTbl
  by_cases hd : env.session.IsMiKTeXDirect = true
  · have hr : resolve env (loadedCfg env s.comboCfg) p = fun e =>
        { e with isRemovable := false, isObsolete := false, timeInstalled := p.timePackaged,
                 timeInstalledByAdmin := p.timePackaged, timeInstalledByUser := p.timePackaged } := by
      funext e; simp [resolve, hd]
    simp [hd, hr]
  · simp only [hd, Bool.false_eq_true, if_false, IsRemovable_store, IsObsolete_store, GetTimeInstalled_store,
      GetCommonTimeInstalled_store, GetUserTimeInstalled_store, GetReleaseState_store,
      IsRemovable_val, IsObsolete_val, GetTimeInstalled_val, GetCommonTimeInstalled_val,
      GetUserTimeInstalled_val, GetReleaseState_val, LoadVarData_eq, loadedCfg_idem]
    simp only [modify_modify, implies_true, find_modify, if_true, find_insert_self, Option.map_some',
      PackageInfo.IsInstalled]
    by_cases hv : IsValidTimeT (timeInstalledIn env.session.IsAdminMode
        (loadedCfg env s.comboCfg) p.id) = true
    · simp only [hv, if_true]
      congr 1
      apply modify_congr
      intro e _
      simp [resolve, hd, hv]
    · simp only [hv, Bool.false_eq_true, if_false]
      congr 1
      apply modify_congr
      intro e _
      simp [resolve, hd, hv]
/-! ## C7: SetTimeInstalled -/

theorem assignField_known (env : Env) (s : Store) (id : String) (f : PackageInfo → PackageInfo)
    (h : id ∈ keys (Load env s).packageTable) :
    assignField env s id f
      = (Except.ok (), { Load env s with packageTable := modify (Load env s).packageTable id f }) := by
  unfold assignField operatorIndex
  cases hf : find (Load env s).packageTable id with
  | none => exact absurd h ((find_eq_none_iff _ _).1 hf)
  | some e => simp [hf]

@[simp] theorem ComboCfg.scope_putScope_same (c : ComboCfg) (sc : Scope) (f : ScopeCfg) :
    (c.putScope sc f).scope sc = f := by
  cases sc <;> rfl

/-- The record `GetPackageManifest` returns is never installed: install state is not
part of a manifest. -/
@[simp] theorem GetPackageManifest_IsInstalled (key : Manifest) :
    (GetPackageManifest key).IsInstalled = false := by
  simp [GetPackageManifest, PackageInfo.IsInstalled, PackageInfo.default, IsValidTimeT]

/-- C2, evaluated.  The manifest defines "base" with the run file "a.sty"; the Common
scope records it as installed at time 100; the session is neither in admin mode nor
installed from the start.  After the full load of the empty store the table holds
"base" as installed, with "a.sty" among its run files, and yet the reference count of
"a.sty" is 0: `Load(Cfg&)` asks `IsInstalled()` of the record it read from the
manifest, not of the table entry `DefinePackage` has just resolved. -/
theorem Load_refcount_of_installed_package :
    (TryGetPackage envBase Store.empty "base").1.1 = true ∧
    (TryGetPackage envBase Store.empty "base").1.2.IsInstalled = true ∧
    (TryGetPackage envBase Store.empty "base").1.2.timeInstalled = 100 ∧
    (TryGetPackage envBase Store.empty "base").1.2.runFiles = ["a.sty"] ∧
    envBase.session.IsMiKTeXDirect = false ∧
    (GetFileRefCount envBase Store.empty "a.sty").1 = 0 := by
  decide

/-! ## From the stateful Load to its table-level view -/

theorem cfgStep_loadedCfg {env : Env} {c c2 : ComboCfg} (h : cfgStep env c c2) :
    loadedCfg env c2 = loadedCfg env c := by
  rcases h with h | h <;> simp [h]

theorem cfgStep_trans {env : Env} {c c2 c3 : ComboCfg} (h : cfgStep env c c2)
    (h2 : cfgStep env c2 c3) : cfgStep env c c3 := by
  rcases h2 with h2 | h2
  · rw [h2]; exact h
  · right; rw [h2, cfgStep_loadedCfg h]

theorem TableStep.refl (env : Env) (s : Store) : TableStep env s s s.packageTable :=
  ⟨rfl, rfl, rfl, Or.inl rfl⟩

theorem TableStep.trans {env : Env} {s s2 s3 : Store} {tbl tbl3 : PackageDefinitionTable}
    (h : TableStep env s s2 tbl) (h2 : TableStep env s2 s3 tbl3) : TableStep env s s3 tbl3 :=
  ⟨h2.1, h2.2.1.trans h.2.1, h2.2.2.1.trans h.2.2.1, cfgStep_trans h.2.2.2 h2.2.2.2⟩

theorem TableStep.cfg {env : Env} {s s2 : Store} {tbl : PackageDefinitionTable}
    (h : TableStep env s s2 tbl) : loadedCfg env s2.comboCfg = loadedCfg env s.comboCfg :=
  cfgStep_loadedCfg h.2.2.2

theorem DefinePackage_step (env : Env) (s : Store) (p : PackageInfo) :
    TableStep env s (DefinePackage env s p)
      (definePackageTbl env (loadedCfg env s.comboCfg) s.packageTable p) := by
  rw [DefinePackage_eq]
  refine ⟨rfl, rfl, rfl, ?_⟩
  simp only []
  split
  · exact Or.inl rfl
  · exact Or.inr rfl

theorem loadKey_step (env : Env) (s : Store) (key : Manifest) :
    TableStep env s (loadKey env s key)
      (loadKeyTbl env (loadedCfg env s.comboCfg) s.packageTable key) := by
  unfold loadKey loadKeyTbl
  split
  · exact TableStep.refl env s
  · simp only [GetPackageManifest_IsInstalled, Bool.false_eq_true, if_false]
    split
    · exact TableStep.refl env s
    · exact DefinePackage_step env s _

theorem loadKeys_step (env : Env) (s : Store) (cfg : Cfg) :
    TableStep env s (loadKeys env s cfg)
      (cfg.foldl (loadKeyTbl env (loadedCfg env s.comboCfg)) s.packageTable) := by
  unfold loadKeys
  induction cfg generalizing s with
  | nil => exact TableStep.refl env s
  | cons key rest ih =>
    have h1 := loadKey_step env s key
    have h2 := ih (loadKey env s key)
    rw [h1.cfg, h1.1] at h2
    simp only [List.foldl_cons]
    exact h1.trans h2

theorem obsoleteMember_step (env : Env) (st : ContainerState) (pkgId : String) :
    TableStep env st.store (obsoleteMember env st pkgId).store
      (memberStep (obsoleteCond env (loadedCfg env st.store.comboCfg)) st.pi.id
        (st.store.packageTable, st.pi.requiredPackages) pkgId).1 ∧
    (obsoleteMember env st pkgId).pi =
      { st.pi with requiredPackages :=
          (memberStep (obsoleteCond env (loadedCfg env st.store.comboCfg)) st.pi.id
            (st.store.packageTable, st.pi.requiredPackages) pkgId).2 } := by
  unfold obsoleteMember memberStep
  cases hf : find st.store.packageTable pkgId with
  | none => exact ⟨TableStep.refl env _, rfl⟩
  | some pkg =>
    have hid := find_some_id hf
    by_cases h1 : (!pkg.IsContained && !pkg.IsContainer) = true
    · by_cases h2 : isObsoleteIn env.session.IsAdminMode (loadedCfg env st.store.comboCfg)
          pkgId = true
      · have hc : obsoleteCond env (loadedCfg env st.store.comboCfg) pkg = true := by
          simp only [obsoleteCond, h1, hid, h2, Bool.and_self]
        have hv : (IsObsolete env st.store pkgId).1 = true := by rw [IsObsolete_val, h2]
        simp only [h1, hc, hv, if_true, IsObsolete_store, LoadVarData_eq]
        exact ⟨⟨rfl, rfl, rfl, Or.inr rfl⟩, trivial⟩
      · have hc : ¬ obsoleteCond env (loadedCfg env st.store.comboCfg) pkg = true := by
          simp only [obsoleteCond, h1, hid, h2, Bool.and_self]
          simp
        have hv : ¬ (IsObsolete env st.store pkgId).1 = true := by rw [IsObsolete_val]; exact h2
        simp only [h1, hc, hv, if_true, if_false, IsObsolete_store, LoadVarData_eq]
        exact ⟨⟨rfl, rfl, rfl, Or.inr rfl⟩, rfl⟩
    · have hc : ¬ obsoleteCond env (loadedCfg env st.store.comboCfg) pkg = true := by
        simp only [obsoleteCond, h1]
        simp
      simp only [h1, hc, if_false]
      exact ⟨TableStep.refl env _, rfl⟩

theorem otherMember_step (env : Env) (st : ContainerState) (pkgId : String) :
    TableStep env st.store (otherMember st pkgId).store
      (memberStep otherCond st.pi.id (st.store.packageTable, st.pi.requiredPackages) pkgId).1 ∧
    (otherMember st pkgId).pi =
      { st.pi with requiredPackages :=
          (memberStep otherCond st.pi.id
            (st.store.packageTable, st.pi.requiredPackages) pkgId).2 } := by
  unfold otherMember memberStep
  cases hf : find st.store.packageTable pkgId with
  | none => exact ⟨TableStep.refl env _, rfl⟩
  | some pkg =>
    by_cases h1 : (!pkg.IsContained && !pkg.IsContainer) = true
    · have hc : otherCond pkg = true := h1
      simp only [h1, hc, if_true]
      exact ⟨⟨rfl, rfl, rfl, Or.inl rfl⟩, trivial⟩
    · have hc : ¬ otherCond pkg = true := h1
      simp only [h1, hc, if_false]
      exact ⟨TableStep.refl env _, rfl⟩

theorem obsoleteMembers_step (env : Env) (st : ContainerState) (ks : List String) :
    TableStep env st.store (ks.foldl (obsoleteMember env) st).store
      (ks.foldl (memberStep (obsoleteCond env (loadedCfg env st.store.comboCfg)) st.pi.id)
        (st.store.packageTable, st.pi.requiredPackages)).1 ∧
    (ks.foldl (obsoleteMember env) st).pi =
      { st.pi with requiredPackages :=
          (ks.foldl (memberStep (obsoleteCond env (loadedCfg env st.store.comboCfg)) st.pi.id)
            (st.store.packageTable, st.pi.requiredPackages)).2 } := by
  induction ks generalizing st with
  | nil => exact ⟨TableStep.refl env _, rfl⟩
  | cons k rest ih =>
    obtain ⟨h1, h2⟩ := obsoleteMember_step env st k
    obtain ⟨h3, h4⟩ := ih (obsoleteMember env st k)
    simp only [List.foldl_cons]
    rw [h1.cfg, h1.1, h2] at h3
    rw [h1.cfg, h1.1, h2] at h4
    exact ⟨h1.trans h3, h4⟩

theorem otherMembers_step (env : Env) (st : ContainerState) (ks : List String) :
    TableStep env st.store (ks.foldl otherMember st).store
      (ks.foldl (memberStep otherCond st.pi.id)
        (st.store.packageTable, st.pi.requiredPackages)).1 ∧
    (ks.foldl otherMember st).pi =
      { st.pi with requiredPackages :=
          (ks.foldl (memberStep otherCond st.pi.id)
            (st.store.packageTable, st.pi.requiredPackages)).2 } := by
  induction ks generalizing st with
  | nil => exact ⟨TableStep.refl env _, rfl⟩
  | cons k rest ih =>
    obtain ⟨h1, h2⟩ := otherMember_step env st k
    obtain ⟨h3, h4⟩ := ih (otherMember st k)
    simp only [List.foldl_cons]
    rw [h1.1, h2] at h3
    rw [h1.1, h2] at h4
    exact ⟨h1.trans h3, h4⟩

theorem createObsolete_step (env : Env) (s : Store) :
    TableStep env s (createObsolete env s)
      (createContainerTbl env (loadedCfg env s.comboCfg)
        (obsoleteCond env (loadedCfg env s.comboCfg)) piObsolete s.packageTable) := by
  obtain ⟨h1, h2⟩ := obsoleteMembers_step env { store := s, pi := piObsolete } (keys s.packageTable)
  unfold createObsolete createContainerTbl
  simp only [] at h1 h2 ⊢
  rw [h2]
  simp only []
  split
  · have h3 := DefinePackage_step env
      ((keys s.packageTable).foldl (obsoleteMember env) { store := s, pi := piObsolete }).store
      { piObsolete with requiredPackages :=
          ((keys s.packageTable).foldl
            (memberStep (obsoleteCond env (loadedCfg env s.comboCfg)) piObsolete.id)
            (s.packageTable, piObsolete.requiredPackages)).2 }
    rw [h1.cfg, h1.1] at h3
    exact h1.trans h3
  · exact h1

theorem createOther_step (env : Env) (s : Store) :
    TableStep env s (createOther env s)
      (createContainerTbl env (loadedCfg env s.comboCfg) otherCond piOther s.packageTable) := by
  obtain ⟨h1, h2⟩ := otherMembers_step env { store := s, pi := piOther } (keys s.packageTable)
  unfold createOther createContainerTbl
  simp only [] at h1 h2 ⊢
  rw [h2]
  simp only []
  split
  · have h3 := DefinePackage_step env
      ((keys s.packageTable).foldl otherMember { store := s, pi := piOther }).store
      { piOther with requiredPackages :=
          ((keys s.packageTable).foldl (memberStep otherCond piOther.id)
            (s.packageTable, piOther.requiredPackages)).2 }
    rw [h1.cfg, h1.1] at h3
    exact h1.trans h3
  · exact h1

theorem LoadCfg_step (env : Env) (s : Store) (cfg : Cfg) :
    TableStep env s (LoadCfg env s cfg)
      (LoadCfgTbl env (loadedCfg env s.comboCfg) s.packageTable cfg) := by
  have h1 := loadKeys_step env s cfg
  have h2 : TableStep env (loadKeys env s cfg)
      { loadKeys env s cfg with
        packageTable := determineDependencies (loadKeys env s cfg).packageTable }
      (linkedTbl env (loadedCfg env s.comboCfg) s.packageTable cfg) := by
    refine ⟨?_, rfl, rfl, Or.inl rfl⟩
    simp only [linkedTbl, h1.1]
  have h12 := h1.trans h2
  have h3 := createObsolete_step env
    { loadKeys env s cfg with
      packageTable := determineDependencies (loadKeys env s cfg).packageTable }
  rw [h12.cfg, h12.1] at h3
  have h123 := h12.trans h3
  have h4 := createOther_step env (createObsolete env
    { loadKeys env s cfg with
      packageTable := determineDependencies (loadKeys env s cfg).packageTable })
  rw [h123.cfg, h123.1] at h4
  exact h123.trans h4

/-- The tables of a full load, for a store that has not been loaded yet. -/
theorem Load_tables (env : Env) (s : Store) (h : s.loadedAllPackageManifests = false) :
    (Load env s).packageTable
      = LoadCfgTbl env (loadedCfg env s.comboCfg) s.packageTable (readManifests env) ∧
    (Load env s).installedFileInfoTable = s.installedFileInfoTable := by
  have h1 := LoadCfg_step env s (readManifests env)
  unfold Load
  simp only [h, Bool.false_eq_true, if_false]
  exact ⟨h1.1, h1.2.1⟩

/-! ## The dependency pass -/

theorem depReq_tbl (p : String) (st : DepState) (req : String) :
    (depReq p st req).tbl = modify st.tbl req (pushRequiredBy p) := by
  unfold depReq
  cases h : find st.tbl req with
  | none =>
    simp only []
    rw [modify_absent _ _ _ ((find_eq_none_iff _ _).1 h)]
  | some e => rfl

theorem addRB_nil (p : String) (e : PackageInfo) : addRB [] p e = e := by
  simp [addRB]

theorem depReqs_tbl (p : String) (reqs : List String) (st : DepState) :
    (reqs.foldl (depReq p) st).tbl = st.tbl.map (addRB reqs p) := by
  induction reqs generalizing st with
  | nil =>
    simp only [List.foldl_nil]
    conv => lhs; rw [← List.map_id st.tbl]
    apply List.map_congr_left
    intro e _
    simp [addRB_nil]
  | cons req rest ih =>
    simp only [List.foldl_cons]
    rw [ih, depReq_tbl]
    unfold modify
    rw [List.map_map]
    apply List.map_congr_left
    intro e _
    by_cases he : e.id = req
    · subst he
      simp only [addRB, pushRequiredBy, List.count_cons, beq_self_eq_true, if_true,
        Function.comp_apply, List.replicate_succ, List.append_assoc, List.singleton_append]
    · have : ¬ req = e.id := fun h => he h.symm
      simp [he, this, addRB, List.count_cons]

@[simp] theorem noTime_id (e : PackageInfo) : (noTime e).id = e.id := rfl

@[simp] theorem addRB_id (reqs : List String) (p : String) (e : PackageInfo) :
    (addRB reqs p e).id = e.id := rfl

@[simp] theorem addRBs_id (R : String → List String) (ks : List String) (e : PackageInfo) :
    (addRBs R ks e).id = e.id := rfl

theorem reqsOf_map (tbl : PackageDefinitionTable) (h : PackageInfo → PackageInfo)
    (hid : ∀ e, (h e).id = e.id) (hr : ∀ e, (h e).requiredPackages = e.requiredPackages) :
    reqsOf (tbl.map h) = reqsOf tbl := by
  funext k
  unfold reqsOf
  rw [find_map _ _ hid]
  cases find tbl k <;> simp [hr]

theorem depPkg_noTime (tbl : PackageDefinitionTable) (p : String) :
    (depPkg tbl p).map noTime = tbl.map (fun e => noTime (addRB (reqsOf tbl p) p e)) := by
  unfold depPkg
  cases hf : find tbl p with
  | none =>
    simp only [reqsOf, hf, Option.map_none', Option.getD_none, addRB_nil]
  | some pkg =>
    have hr : reqsOf tbl p = pkg.requiredPackages := by simp [reqsOf, hf]
    have hset : ∀ (t : PackageDefinitionTable) (x : time_t),
        (modify t p (fun e => { e with timeInstalled := x })).map noTime = t.map noTime := by
      intro t x
      unfold modify
      rw [List.map_map]
      apply List.map_congr_left
      intro e _
      by_cases he : e.id = p <;> simp [he, noTime]
    simp only [hr]
    split
    · split
      · rw [depReqs_tbl, List.map_map]; rfl
      · split
        · rw [hset, depReqs_tbl, List.map_map]; rfl
        · rw [depReqs_tbl, List.map_map]; rfl
    · rw [depReqs_tbl, List.map_map]; rfl

theorem reqsOf_noTime (tbl : PackageDefinitionTable) : reqsOf (tbl.map noTime) = reqsOf tbl :=
  reqsOf_map tbl noTime (fun _ => rfl) (fun _ => rfl)

theorem reqsOf_depPkg (tbl : PackageDefinitionTable) (p : String) :
    reqsOf (depPkg tbl p) = reqsOf tbl := by
  rw [← reqsOf_noTime (depPkg tbl p), depPkg_noTime]
  exact reqsOf_map tbl _ (fun _ => rfl) (fun _ => rfl)

theorem depPkgs_noTime (ks : List String) (tbl : PackageDefinitionTable) :
    (ks.foldl depPkg tbl).map noTime = tbl.map (fun e => noTime (addRBs (reqsOf tbl) ks e)) := by
  induction ks generalizing tbl with
  | nil =>
    simp only [List.foldl_nil]
    apply List.map_congr_left
    intro e _
    simp [addRBs, rbOf]
  | cons p rest ih =>
    simp only [List.foldl_cons]
    rw [ih, reqsOf_depPkg]
    have hcomm : (fun e => noTime (addRBs (reqsOf tbl) rest e))
        = (fun e => noTime (addRBs (reqsOf tbl) rest e)) ∘ noTime := by
      funext e; rfl
    rw [hcomm, ← List.map_map, depPkg_noTime, List.map_map]
    apply List.map_congr_left
    intro e _
    simp [addRBs, addRB, rbOf, noTime, List.flatMap_cons]

theorem determineDependencies_noTime (tbl : PackageDefinitionTable) :
    (determineDependencies tbl).map noTime
      = tbl.map (fun e => noTime (addRBs (reqsOf tbl) (keys tbl) e)) :=
  depPkgs_noTime (keys tbl) tbl

theorem count_rbOf (R : String → List String) (ks : List String) (q x : String) :
    (rbOf R ks q).count x = ks.count x * (R x).count q := by
  induction ks with
  | nil => simp [rbOf]
  | cons p rest ih =>
    have h : rbOf R (p :: rest) q = List.replicate ((R p).count q) p ++ rbOf R rest q := by
      simp [rbOf, List.flatMap_cons]
    rw [h, List.count_append, ih, List.count_replicate, List.count_cons]
    by_cases hp : p = x
    · subst hp; simp [Nat.add_mul, Nat.add_comm]
    · simp [hp]

/-! ## The manifest data of the table -/

@[simp] theorem manifestOf_GetPackageManifest (m : Manifest) :
    manifestOf (GetPackageManifest m) = m := rfl

@[simp] theorem manifestOf_resolve (env : Env) (c : ComboCfg) (p e : PackageInfo) :
    manifestOf (resolve env c p e) = manifestOf e := by
  unfold resolve; split <;> rfl

@[simp] theorem manifestOf_noTime (e : PackageInfo) : manifestOf (noTime e) = manifestOf e := rfl

@[simp] theorem manifestOf_pushRequiredBy (cid : String) (e : PackageInfo) :
    manifestOf (pushRequiredBy cid e) = manifestOf e := rfl

theorem keys_eq_manifest_ids (tbl : PackageDefinitionTable) :
    keys tbl = (tbl.map manifestOf).map (fun m => m.id) := by
  simp [keys, List.map_map, Function.comp_def, manifestOf]

theorem modify_manifestOf (tbl : PackageDefinitionTable) (k : String)
    (f : PackageInfo → PackageInfo) (hf : ∀ e, manifestOf (f e) = manifestOf e) :
    (modify tbl k f).map manifestOf = tbl.map manifestOf := by
  unfold modify
  rw [List.map_map]
  apply List.map_congr_left
  intro e _
  by_cases he : e.id = k <;> simp [he, hf]

theorem definePackageTbl_absent (env : Env) (c : ComboCfg) (tbl : PackageDefinitionTable)
    (p : PackageInfo) (h : p.id ∉ keys tbl) :
    definePackageTbl env c tbl p = tbl ++ [resolve env c p p] := by
  unfold definePackageTbl
  rw [insert_of_absent _ _ h]
  unfold modify
  rw [List.map_append]
  have := modify_absent tbl p.id (resolve env c p) h
  unfold modify at this
  rw [this]
  simp

theorem definePackageTbl_manifestOf (env : Env) (c : ComboCfg) (tbl : PackageDefinitionTable)
    (p : PackageInfo) :
    (definePackageTbl env c tbl p).map manifestOf
      = if p.id ∈ keys tbl then tbl.map manifestOf else tbl.map manifestOf ++ [manifestOf p] := by
  by_cases h : p.id ∈ keys tbl
  · unfold definePackageTbl
    rw [modify_manifestOf _ _ _ (fun e => manifestOf_resolve env c p e), insert_of_present _ _ h,
      if_pos h]
  · rw [definePackageTbl_absent _ _ _ _ h, if_neg h]
    simp

theorem loadKeyTbl_manifestOf (env : Env) (c : ComboCfg) (tbl : PackageDefinitionTable)
    (key : Manifest) :
    (loadKeyTbl env c tbl key).map manifestOf = mergeStep env (tbl.map manifestOf) key := by
  unfold loadKeyTbl mergeStep accepted
  rw [← keys_eq_manifest_ids]
  by_cases hk : key.id ∈ keys tbl
  · have := (find_isSome_iff tbl key.id).2 hk
    simp [this, hk]
  · have h1 : ¬ (find tbl key.id).isSome = true := fun h => hk ((find_isSome_iff _ _).1 h)
    simp only [h1, if_false, hk, false_or]
    by_cases hi : ignoredForOtherSystem env (GetPackageManifest key) = true
    · simp [hi]
    · have hid : (GetPackageManifest key).id = key.id := rfl
      have hi2 : ignoredForOtherSystem env (GetPackageManifest key) = false := by simpa using hi
      simp only [hi2, Bool.false_eq_true, if_false, Bool.not_false]
      rw [definePackageTbl_manifestOf, hid, if_neg hk]
      rfl

theorem loadKeysTbl_manifestOf (env : Env) (c : ComboCfg) (cfg : Cfg)
    (tbl : PackageDefinitionTable) :
    (cfg.foldl (loadKeyTbl env c) tbl).map manifestOf = merged env (tbl.map manifestOf) cfg := by
  unfold merged
  induction cfg generalizing tbl with
  | nil => rfl
  | cons key rest ih =>
    simp only [List.foldl_cons]
    rw [ih, loadKeyTbl_manifestOf]

theorem determineDependencies_manifestOf (tbl : PackageDefinitionTable) :
    (determineDependencies tbl).map manifestOf = tbl.map manifestOf := by
  have h := congrArg (List.map manifestOf) (determineDependencies_noTime tbl)
  simp only [List.map_map] at h
  have h1 : manifestOf ∘ noTime = manifestOf := by funext e; rfl
  have h2 : (manifestOf ∘ fun e => noTime (addRBs (reqsOf tbl) (keys tbl) e)) = manifestOf := by
    funext e; rfl
  rw [h1, h2] at h
  exact h

theorem keys_determineDependencies (tbl : PackageDefinitionTable) :
    keys (determineDependencies tbl) = keys tbl := by
  rw [keys_eq_manifest_ids, determineDependencies_manifestOf, ← keys_eq_manifest_ids]

/-! ## The merged manifests -/

theorem mergeStep_eq (env : Env) (acc : List Manifest) (key : Manifest) :
    ∃ rest, mergeStep env acc key = acc ++ rest ∧
      (∀ x ∈ rest, x = key ∧ accepted env key = true ∧ key.id ∉ acc.map (fun m => m.id)) := by
  unfold mergeStep
  split
  · exact ⟨[], by simp, by simp⟩
  · rename_i h
    refine ⟨[key], rfl, ?_⟩
    intro x hx
    simp only [not_or, Bool.not_eq_false] at h
    simp only [List.mem_singleton] at hx
    exact ⟨hx, h.2, h.1⟩

theorem merged_eq (env : Env) (cfg : Cfg) (acc : List Manifest) :
    ∃ rest, merged env acc cfg = acc ++ rest ∧
      (∀ x ∈ rest, x ∈ cfg ∧ accepted env x = true ∧ x.id ∉ acc.map (fun m => m.id)) := by
  unfold merged
  induction cfg generalizing acc with
  | nil => exact ⟨[], by simp, by simp⟩
  | cons key tl ih =>
    obtain ⟨r1, h1, h1p⟩ := mergeStep_eq env acc key
    obtain ⟨r2, h2, h2p⟩ := ih (mergeStep env acc key)
    refine ⟨r1 ++ r2, ?_, ?_⟩
    · simp only [List.foldl_cons]
      rw [h2, h1, List.append_assoc]
    · intro x hx
      rcases List.mem_append.1 hx with hx | hx
      · obtain ⟨he, ha, hn⟩ := h1p x hx
        subst he
        exact ⟨List.mem_cons_self _ _, ha, hn⟩
      · obtain ⟨hm, ha, hn⟩ := h2p x hx
        refine ⟨List.mem_cons_of_mem _ hm, ha, ?_⟩
        intro hmem
        apply hn
        rw [h1]
        simp only [List.map_append, List.mem_append]
        exact Or.inl hmem

theorem merged_nodup (env : Env) (cfg : Cfg) (acc : List Manifest)
    (h : (acc.map (fun m => m.id)).Nodup) :
    ((merged env acc cfg).map (fun m => m.id)).Nodup := by
  unfold merged
  induction cfg generalizing acc with
  | nil => exact h
  | cons key tl ih =>
    simp only [List.foldl_cons]
    apply ih
    unfold mergeStep
    split
    · exact h
    · rename_i hk
      simp only [not_or] at hk
      rw [List.map_append, List.nodup_append]
      refine ⟨h, by simp, ?_⟩
      intro a ha hb
      simp only [List.map_cons, List.map_nil, List.mem_singleton] at hb
      subst hb
      exact hk.1 ha

/-! ## The container loops -/

theorem memberFold (cond : PackageInfo → Bool) (cid : String) (ks : List String)
    (tbl : PackageDefinitionTable) (mem : List String)
    (hn : (keys tbl).Nodup) (hks : ks.Nodup) :
    ks.foldl (memberStep cond cid) (tbl, mem) =
      (tbl.map (fun e => if e.id ∈ ks ∧ cond e = true then pushRequiredBy cid e else e),
       mem ++ ks.filter (fun p =>
         match find tbl p with
         | some e => cond e
         | none => false)) := by
  induction ks generalizing tbl mem with
  | nil =>
    simp only [List.foldl_nil, List.filter_nil, List.append_nil, List.not_mem_nil, false_and,
      if_false, List.map_id']
  | cons p rest ih =>
    have hp : p ∉ rest := (List.nodup_cons.1 hks).1
    have hrest : rest.Nodup := (List.nodup_cons.1 hks).2
    simp only [List.foldl_cons]
    cases hf : find tbl p with
    | none =>
      have hstep : memberStep cond cid (tbl, mem) p = (tbl, mem) := by
        simp only [memberStep, hf]
      rw [hstep, ih tbl mem hn hrest]
      have hk := (find_eq_none_iff _ _).1 hf
      congr 1
      · apply List.map_congr_left
        intro e he
        have hne : e.id ≠ p := by
          intro h; apply hk; rw [← h]; exact List.mem_map_of_mem _ he
        simp [hne]
      · simp [List.filter_cons, hf]
    | some e0 =>
      have hid0 := find_some_id hf
      have huniq : ∀ e ∈ tbl, e.id = p → e = e0 := by
        intro e he hid
        have h1 := find_of_mem_nodup hn he
        rw [hid, hf] at h1
        exact (Option.some.inj h1).symm
      by_cases hc : cond e0 = true
      · have hstep : memberStep cond cid (tbl, mem) p
            = (modify tbl p (pushRequiredBy cid), mem ++ [p]) := by
          simp only [memberStep, hf, hc, if_true]
        have hn2 : (keys (modify tbl p (pushRequiredBy cid))).Nodup := by
          rw [keys_modify tbl p (pushRequiredBy cid) (fun _ => rfl)]; exact hn
        rw [hstep, ih _ _ hn2 hrest]
        congr 1
        · unfold modify
          rw [List.map_map]
          apply List.map_congr_left
          intro e he
          by_cases hep : e.id = p
          · have := huniq e he hep
            subst this
            have hpid : (pushRequiredBy cid e).id = p := hep
            simp [hep, hp, hc, hpid]
          · simp [hep]
        · have hfilt : rest.filter (fun q =>
              match find (modify tbl p (pushRequiredBy cid)) q with
              | some e => cond e
              | none => false)
              = rest.filter (fun q =>
              match find tbl q with
              | some e => cond e
              | none => false) := by
            apply List.filter_congr
            intro q hq
            have hqp : q ≠ p := fun h => hp (h ▸ hq)
            rw [find_modify tbl p (pushRequiredBy cid) (fun _ => rfl), if_neg hqp]
          rw [hfilt]
          simp [List.filter_cons, hf, hc]
      · have hstep : memberStep cond cid (tbl, mem) p = (tbl, mem) := by
          simp [memberStep, hf, hc]
        rw [hstep, ih tbl mem hn hrest]
        congr 1
        · apply List.map_congr_left
          intro e he
          by_cases hep : e.id = p
          · have := huniq e he hep
            subst this
            simp [hc]
          · simp [hep]
        · simp [List.filter_cons, hf, hc]

theorem memberFold_keys (cond : PackageInfo → Bool) (cid : String)
    (tbl : PackageDefinitionTable) (mem : List String) (hn : (keys tbl).Nodup) :
    (keys tbl).foldl (memberStep cond cid) (tbl, mem)
      = (markMembers cond cid tbl, mem ++ memberIds cond tbl) := by
  rw [memberFold cond cid (keys tbl) tbl mem hn hn]
  congr 1
  · unfold markMembers
    apply List.map_congr_left
    intro e he
    have : e.id ∈ keys tbl := List.mem_map_of_mem _ he
    simp [this]
  · congr 1
    unfold memberIds keys
    rw [List.filter_map]
    congr 1
    apply List.filter_congr
    intro e he
    simp only [Function.comp_apply]
    rw [find_of_mem_nodup hn he]

theorem createContainerTbl_eq (env : Env) (c : ComboCfg) (cond : PackageInfo → Bool)
    (pi : PackageInfo) (tbl : PackageDefinitionTable) (hn : (keys tbl).Nodup) :
    createContainerTbl env c cond pi tbl =
      if (pi.requiredPackages ++ memberIds cond tbl).isEmpty = false
      then definePackageTbl env c (markMembers cond pi.id tbl)
        { pi with requiredPackages := pi.requiredPackages ++ memberIds cond tbl }
      else markMembers cond pi.id tbl := by
  unfold createContainerTbl
  simp only [memberFold_keys cond pi.id tbl pi.requiredPackages hn]
  cases h : (pi.requiredPackages ++ memberIds cond tbl).isEmpty <;> simp

theorem eq_of_id_eq {tbl : PackageDefinitionTable} (hn : (keys tbl).Nodup)
    {e e2 : PackageInfo} (he : e ∈ tbl) (he2 : e2 ∈ tbl) (h : e.id = e2.id) : e = e2 := by
  have h1 := find_of_mem_nodup hn he
  have h2 := find_of_mem_nodup hn he2
  rw [h, h2] at h1
  exact (Option.some.inj h1).symm

theorem keys_filter_nodup {tbl : PackageDefinitionTable} (hn : (keys tbl).Nodup)
    (cond : PackageInfo → Bool) : (memberIds cond tbl).Nodup := by
  unfold memberIds keys
  exact List.Nodup.sublist (List.Sublist.map _ (List.filter_sublist tbl)) hn

theorem mem_memberIds {tbl : PackageDefinitionTable} (hn : (keys tbl).Nodup)
    (cond : PackageInfo → Bool) {q : PackageInfo} (hq : q ∈ tbl) :
    q.id ∈ memberIds cond tbl ↔ cond q = true := by
  unfold memberIds keys
  constructor
  · intro h
    obtain ⟨e, he, hid⟩ := List.mem_map.1 h
    have hmem := List.mem_filter.1 he
    have := eq_of_id_eq hn hmem.1 hq hid
    rw [← this]; exact hmem.2
  · intro h
    exact List.mem_map_of_mem _ (List.mem_filter.2 ⟨hq, h⟩)

theorem memberIds_subset (cond : PackageInfo → Bool) (tbl : PackageDefinitionTable)
    {x : String} (h : x ∈ memberIds cond tbl) : x ∈ keys tbl := by
  unfold memberIds keys at *
  obtain ⟨e, he, hid⟩ := List.mem_map.1 h
  rw [← hid]
  exact List.mem_map_of_mem _ (List.mem_filter.1 he).1

theorem count_memberIds {tbl : PackageDefinitionTable} (hn : (keys tbl).Nodup)
    (cond : PackageInfo → Bool) {q : PackageInfo} (hq : q ∈ tbl) :
    (memberIds cond tbl).count q.id = if cond q = true then 1 else 0 := by
  by_cases hc : cond q = true
  · rw [if_pos hc]
    exact List.count_eq_one_of_mem (keys_filter_nodup hn cond) ((mem_memberIds hn cond hq).2 hc)
  · rw [if_neg hc]
    exact List.count_eq_zero_of_not_mem (fun h => hc ((mem_memberIds hn cond hq).1 h))

theorem markMembers_of_no_member (cond : PackageInfo → Bool) (cid : String)
    (tbl : PackageDefinitionTable) (h : memberIds cond tbl = []) :
    markMembers cond cid tbl = tbl := by
  unfold markMembers
  conv => rhs; rw [← List.map_id tbl]
  apply List.map_congr_left
  intro e he
  have hc : ¬ cond e = true := by
    intro hc
    have : e.id ∈ memberIds cond tbl := List.mem_map_of_mem _ (List.mem_filter.2 ⟨he, hc⟩)
    rw [h] at this
    cases this
  simp [hc]

theorem keys_markMembers (cond : PackageInfo → Bool) (cid : String)
    (tbl : PackageDefinitionTable) : keys (markMembers cond cid tbl) = keys tbl := by
  unfold markMembers
  apply keys_map
  intro e
  split <;> rfl

/-- A container with the fresh id `cid`, no `requiredBy` and the gathered members as
`requiredPackages` keeps the table symmetric. -/
theorem Sym_container {tbl : PackageDefinitionTable} (cond : PackageInfo → Bool) (cid : String)
    (C : PackageInfo) (hn : (keys tbl).Nodup) (hs : Sym tbl) (hk : cid ∉ keys tbl)
    (hrp : ∀ P ∈ tbl, cid ∉ P.requiredPackages) (hrb : ∀ Q ∈ tbl, cid ∉ Q.requiredBy)
    (hC1 : C.id = cid) (hC2 : C.requiredBy = [])
    (hC3 : C.requiredPackages = memberIds cond tbl) :
    Sym (markMembers cond cid tbl ++ [C]) := by
  have hmark : ∀ X ∈ markMembers cond cid tbl, ∃ x ∈ tbl, X.id = x.id ∧
      X.requiredPackages = x.requiredPackages ∧
      X.requiredBy = x.requiredBy ++ (if cond x = true then [cid] else []) := by
    intro X hX
    unfold markMembers at hX
    obtain ⟨x, hx, rfl⟩ := List.mem_map.1 hX
    refine ⟨x, hx, ?_⟩
    by_cases hc : cond x = true <;> simp [hc, pushRequiredBy]
  have hne : ∀ x ∈ tbl, x.id ≠ cid := by
    intro x hx h
    apply hk; rw [← h]; exact List.mem_map_of_mem _ hx
  intro P hP Q hQ
  rcases List.mem_append.1 hP with hP | hP <;> rcases List.mem_append.1 hQ with hQ | hQ
  · obtain ⟨p, hp, hpid, hprp, _⟩ := hmark P hP
    obtain ⟨q, hq, hqid, _, hqrb⟩ := hmark Q hQ
    rw [hpid, hprp, hqid, hqrb, List.count_append, hs p hp q hq]
    have : (if cond q = true then [cid] else []).count p.id = 0 := by
      apply List.count_eq_zero_of_not_mem
      intro h
      by_cases hc : cond q = true
      · simp only [hc, if_true, List.mem_singleton] at h
        exact hne p hp h
      · simp [hc] at h
    omega
  · obtain ⟨p, hp, hpid, hprp, _⟩ := hmark P hP
    have hQ2 : Q = C := by simpa using hQ
    subst hQ2
    rw [hC2, hprp, hC1]
    simp only [List.count_nil]
    exact (List.count_eq_zero_of_not_mem (hrp p hp)).symm
  · obtain ⟨q, hq, hqid, _, hqrb⟩ := hmark Q hQ
    have hP2 : P = C := by simpa using hP
    subst hP2
    rw [hC1, hC3, hqid, hqrb, List.count_append, count_memberIds hn cond hq,
      List.count_eq_zero_of_not_mem (hrb q hq)]
    by_cases hc : cond q = true <;> simp [hc]
  · have hP2 : P = C := by simpa using hP
    have hQ2 : Q = C := by simpa using hQ
    subst hP2; subst hQ2
    rw [hC2, hC3, hC1]
    simp only [List.count_nil]
    exact (List.count_eq_zero_of_not_mem (fun h => hk (memberIds_subset cond tbl h))).symm

@[simp] theorem resolve_requiredBy (env : Env) (c : ComboCfg) (p e : PackageInfo) :
    (resolve env c p e).requiredBy = e.requiredBy := by
  unfold resolve; split <;> rfl

@[simp] theorem resolve_requiredPackages (env : Env) (c : ComboCfg) (p e : PackageInfo) :
    (resolve env c p e).requiredPackages = e.requiredPackages := by
  unfold resolve; split <;> rfl

theorem resolve_GetNumFiles (env : Env) (c : ComboCfg) (p e : PackageInfo) :
    (resolve env c p e).GetNumFiles = e.GetNumFiles := by
  unfold resolve; split <;> rfl

theorem createContainerTbl_shape (env : Env) (c : ComboCfg) (cond : PackageInfo → Bool)
    (pi : PackageInfo) (tbl : PackageDefinitionTable) (hn : (keys tbl).Nodup)
    (hk : pi.id ∉ keys tbl) (hpi : pi.requiredPackages = []) :
    createContainerTbl env c cond pi tbl =
      if memberIds cond tbl = [] then tbl
      else markMembers cond pi.id tbl ++ [containerEntry env c pi (memberIds cond tbl)] := by
  rw [createContainerTbl_eq env c cond pi tbl hn, hpi, List.nil_append]
  by_cases hm : memberIds cond tbl = []
  · rw [if_pos hm, hm]
    simp only [List.isEmpty_nil, Bool.true_eq_false, if_false]
    exact markMembers_of_no_member cond pi.id tbl hm
  · rw [if_neg hm]
    have : (memberIds cond tbl).isEmpty = false := by
      cases h : memberIds cond tbl with
      | nil => exact absurd h hm
      | cons a t => rfl
    rw [if_pos this]
    rw [definePackageTbl_absent]
    · rfl
    · rw [keys_markMembers]; exact hk

theorem mem_markMembers {cond : PackageInfo → Bool} {cid : String}
    {tbl : PackageDefinitionTable} {X : PackageInfo} (hX : X ∈ markMembers cond cid tbl) :
    ∃ x ∈ tbl, X = (if cond x = true then pushRequiredBy cid x else x) := by
  unfold markMembers at hX
  obtain ⟨x, hx, rfl⟩ := List.mem_map.1 hX
  exact ⟨x, hx, rfl⟩

theorem RBclosed_container {tbl : PackageDefinitionTable} (cond : PackageInfo → Bool)
    (cid : String) (C : PackageInfo) (hc : RBclosed tbl) (hC1 : C.id = cid)
    (hC2 : C.requiredBy = []) : RBclosed (markMembers cond cid tbl ++ [C]) := by
  intro Q hQ x hx
  rw [keys_append, keys_markMembers, List.mem_append]
  rcases List.mem_append.1 hQ with hQ | hQ
  · obtain ⟨q, hq, rfl⟩ := mem_markMembers hQ
    by_cases hcq : cond q = true
    · simp only [hcq, if_true, pushRequiredBy, List.mem_append, List.mem_singleton] at hx
      rcases hx with hx | hx
      · exact Or.inl (hc q hq x hx)
      · right; simp [keys, hC1, hx]
    · simp only [hcq, if_false] at hx
      exact Or.inl (hc q hq x hx)
  · have : Q = C := by simpa using hQ
    subst this
    rw [hC2] at hx
    cases hx

theorem createContainerTbl_linked (env : Env) (c : ComboCfg) (cond : PackageInfo → Bool)
    (pi : PackageInfo) (tbl : PackageDefinitionTable) (hl : Linked tbl)
    (hf : Fresh pi.id tbl) (hpi : pi.requiredPackages = []) (hrb : pi.requiredBy = []) :
    Linked (createContainerTbl env c cond pi tbl) := by
  obtain ⟨hn, hs, hc⟩ := hl
  obtain ⟨hk, hrp, hrq⟩ := hf
  rw [createContainerTbl_shape env c cond pi tbl hn hk hpi]
  split
  · exact ⟨hn, hs, hc⟩
  · have hid : (containerEntry env c pi (memberIds cond tbl)).id = pi.id := by
      simp [containerEntry]
    have hrb2 : (containerEntry env c pi (memberIds cond tbl)).requiredBy = [] := by
      simp [containerEntry, hrb]
    have hrp2 : (containerEntry env c pi (memberIds cond tbl)).requiredPackages
        = memberIds cond tbl := by
      simp [containerEntry]
    refine ⟨?_, Sym_container cond pi.id _ hn hs hk hrp hrq hid hrb2 hrp2,
      RBclosed_container cond pi.id _ hc hid hrb2⟩
    rw [keys_append, keys_markMembers, List.nodup_append]
    refine ⟨hn, by simp [keys], ?_⟩
    intro a ha hb
    simp only [keys, List.map_cons, List.map_nil, List.mem_singleton, hid] at hb
    subst hb
    exact hk ha

theorem createContainerTbl_fresh (env : Env) (c : ComboCfg) (cond : PackageInfo → Bool)
    (pi : PackageInfo) (tbl : PackageDefinitionTable) (hn : (keys tbl).Nodup)
    (hk : pi.id ∉ keys tbl) (hpi : pi.requiredPackages = []) (hrb : pi.requiredBy = [])
    (cid : String) (hne : cid ≠ pi.id) (hf : Fresh cid tbl) :
    Fresh cid (createContainerTbl env c cond pi tbl) := by
  obtain ⟨hk2, hrp, hrq⟩ := hf
  rw [createContainerTbl_shape env c cond pi tbl hn hk hpi]
  split
  · exact ⟨hk2, hrp, hrq⟩
  · have hid : (containerEntry env c pi (memberIds cond tbl)).id = pi.id := by
      simp [containerEntry]
    refine ⟨?_, ?_, ?_⟩
    · rw [keys_append, keys_markMembers, List.mem_append]
      intro h
      rcases h with h | h
      · exact hk2 h
      · simp only [keys, List.map_cons, List.map_nil, List.mem_singleton, hid] at h
        exact hne h
    · intro P hP
      rcases List.mem_append.1 hP with hP | hP
      · obtain ⟨p, hp, rfl⟩ := mem_markMembers hP
        by_cases hcp : cond p = true
        · simp only [hcp, if_true, pushRequiredBy]; exact hrp p hp
        · simp only [hcp, if_false]; exact hrp p hp
      · have : P = containerEntry env c pi (memberIds cond tbl) := by simpa using hP
        subst this
        simp only [containerEntry, resolve_requiredPackages]
        intro h
        exact hk2 (memberIds_subset cond tbl h)
    · intro Q hQ
      rcases List.mem_append.1 hQ with hQ | hQ
      · obtain ⟨q, hq, rfl⟩ := mem_markMembers hQ
        by_cases hcq : cond q = true
        · simp only [hcq, if_true, pushRequiredBy, List.mem_append, List.mem_singleton, not_or]
          exact ⟨hrq q hq, hne⟩
        · simp only [hcq, if_false]; exact hrq q hq
      · have : Q = containerEntry env c pi (memberIds cond tbl) := by simpa using hQ
        subst this
        simp [containerEntry, hrb]

/-! ## The table after the merge loop and after the dependency pass -/

theorem loadKeyTbl_cases (env : Env) (c : ComboCfg) (tbl : PackageDefinitionTable)
    (key : Manifest) :
    loadKeyTbl env c tbl key = tbl ∨
      (key.id ∉ keys tbl ∧ accepted env key = true ∧
        loadKeyTbl env c tbl key
          = tbl ++ [resolve env c (GetPackageManifest key) (GetPackageManifest key)]) := by
  unfold loadKeyTbl
  by_cases hk : key.id ∈ keys tbl
  · left
    rw [if_pos ((find_isSome_iff _ _).2 hk)]
  · have h1 : ¬ (find tbl key.id).isSome = true := fun h => hk ((find_isSome_iff _ _).1 h)
    rw [if_neg h1]
    by_cases hi : ignoredForOtherSystem env (GetPackageManifest key) = true
    · left; rw [if_pos hi]
    · right
      rw [if_neg hi]
      refine ⟨hk, by simpa [accepted] using hi, ?_⟩
      exact definePackageTbl_absent env c tbl (GetPackageManifest key) hk

theorem loadKeysTbl_mem (env : Env) (c : ComboCfg) (cfg : Cfg) (tbl : PackageDefinitionTable)
    {e : PackageInfo} (he : e ∈ cfg.foldl (loadKeyTbl env c) tbl) :
    e ∈ tbl ∨ ∃ m ∈ cfg, accepted env m = true ∧
      e = resolve env c (GetPackageManifest m) (GetPackageManifest m) := by
  induction cfg generalizing tbl with
  | nil => exact Or.inl he
  | cons key rest ih =>
    simp only [List.foldl_cons] at he
    rcases ih _ he with h | ⟨m, hm, ha, hr⟩
    · rcases loadKeyTbl_cases env c tbl key with h1 | ⟨_, ha, h1⟩
      · rw [h1] at h; exact Or.inl h
      · rw [h1] at h
        rcases List.mem_append.1 h with h | h
        · exact Or.inl h
        · right
          refine ⟨key, List.mem_cons_self _ _, ha, ?_⟩
          simpa using h
    · exact Or.inr ⟨m, List.mem_cons_of_mem _ hm, ha, hr⟩

theorem loadKeysTbl_nodup (env : Env) (c : ComboCfg) (cfg : Cfg) (tbl : PackageDefinitionTable)
    (hn : (keys tbl).Nodup) : (keys (cfg.foldl (loadKeyTbl env c) tbl)).Nodup := by
  rw [keys_eq_manifest_ids, loadKeysTbl_manifestOf]
  apply merged_nodup
  rw [← keys_eq_manifest_ids]
  exact hn

theorem determineDependencies_mem (tbl : PackageDefinitionTable) {e1 : PackageInfo}
    (h : e1 ∈ determineDependencies tbl) :
    ∃ e0 ∈ tbl, noTime e1 = noTime (addRBs (reqsOf tbl) (keys tbl) e0) := by
  have h1 : noTime e1 ∈ (determineDependencies tbl).map noTime := List.mem_map_of_mem _ h
  rw [determineDependencies_noTime] at h1
  obtain ⟨e0, he0, heq⟩ := List.mem_map.1 h1
  exact ⟨e0, he0, heq.symm⟩

theorem determineDependencies_fields (tbl : PackageDefinitionTable)
    (h0 : ∀ e ∈ tbl, e.requiredBy = []) {e1 : PackageInfo}
    (h : e1 ∈ determineDependencies tbl) :
    ∃ e0 ∈ tbl, e1.id = e0.id ∧ e1.requiredPackages = e0.requiredPackages ∧
      e1.requiredBy = rbOf (reqsOf tbl) (keys tbl) e0.id ∧
      manifestOf e1 = manifestOf e0 ∧ e1.isObsolete = e0.isObsolete := by
  obtain ⟨e0, he0, heq⟩ := determineDependencies_mem tbl h
  refine ⟨e0, he0, ?_, ?_, ?_, ?_, ?_⟩
  · have h1 := congrArg PackageInfo.id heq
    exact h1
  · have h1 := congrArg PackageInfo.requiredPackages heq
    exact h1
  · have h1 := congrArg PackageInfo.requiredBy heq
    simp only [noTime, addRBs, h0 e0 he0, List.nil_append] at h1
    exact h1
  · have h1 := congrArg manifestOf heq
    exact h1
  · have h1 := congrArg PackageInfo.isObsolete heq
    exact h1

theorem reqsOf_of_mem {tbl : PackageDefinitionTable} (hn : (keys tbl).Nodup)
    {e : PackageInfo} (he : e ∈ tbl) : reqsOf tbl e.id = e.requiredPackages := by
  simp [reqsOf, find_of_mem_nodup hn he]

theorem determineDependencies_linked (tbl : PackageDefinitionTable) (hn : (keys tbl).Nodup)
    (h0 : ∀ e ∈ tbl, e.requiredBy = []) : Linked (determineDependencies tbl) := by
  refine ⟨by rw [keys_determineDependencies]; exact hn, ?_, ?_⟩
  · intro P hP Q hQ
    obtain ⟨p, hp, hpid, hprp, _, _, _⟩ := determineDependencies_fields tbl h0 hP
    obtain ⟨q, hq, hqid, _, hqrb, _, _⟩ := determineDependencies_fields tbl h0 hQ
    rw [hqrb, hpid, hprp, count_rbOf, reqsOf_of_mem hn hp,
      List.count_eq_one_of_mem hn (List.mem_map_of_mem _ hp), Nat.one_mul, hqid]
  · intro Q hQ x hx
    obtain ⟨q, hq, hqid, _, hqrb, _, _⟩ := determineDependencies_fields tbl h0 hQ
    rw [keys_determineDependencies]
    rw [hqrb] at hx
    have hpos : 0 < (rbOf (reqsOf tbl) (keys tbl) q.id).count x := List.count_pos_iff.2 hx
    rw [count_rbOf] at hpos
    have : 0 < (keys tbl).count x := Nat.pos_of_mul_pos_right hpos
    exact List.count_pos_iff.1 this

theorem determineDependencies_fresh (tbl : PackageDefinitionTable) (hn : (keys tbl).Nodup)
    (h0 : ∀ e ∈ tbl, e.requiredBy = []) (cid : String) (hk : cid ∉ keys tbl)
    (hrp : ∀ e ∈ tbl, cid ∉ e.requiredPackages) : Fresh cid (determineDependencies tbl) := by
  have hl := determineDependencies_linked tbl hn h0
  refine ⟨by rw [keys_determineDependencies]; exact hk, ?_, ?_⟩
  · intro P hP
    obtain ⟨p, hp, _, hprp, _, _, _⟩ := determineDependencies_fields tbl h0 hP
    rw [hprp]; exact hrp p hp
  · intro Q hQ h
    have := hl.2.2 Q hQ cid h
    rw [keys_determineDependencies] at this
    exact hk this

theorem obsoleteId_ne_otherId : obsoleteId ≠ otherId := by decide

/-- The table of a load into an empty table is linked, when no manifest record uses a
reserved container id. -/
theorem LoadCfgTbl_linked (env : Env) (c : ComboCfg) (cfg : Cfg)
    (hres : ∀ m ∈ cfg, reservedFree m) : Linked (LoadCfgTbl env c [] cfg) := by
  have hn0 : (keys (cfg.foldl (loadKeyTbl env c) [])).Nodup :=
    loadKeysTbl_nodup env c cfg [] (by simp)
  have hsrc : ∀ e ∈ cfg.foldl (loadKeyTbl env c) [],
      ∃ m ∈ cfg, e = resolve env c (GetPackageManifest m) (GetPackageManifest m) := by
    intro e he
    rcases loadKeysTbl_mem env c cfg [] he with h | ⟨m, hm, _, hr⟩
    · cases h
    · exact ⟨m, hm, hr⟩
  have h0 : ∀ e ∈ cfg.foldl (loadKeyTbl env c) [], e.requiredBy = [] := by
    intro e he
    obtain ⟨m, _, rfl⟩ := hsrc e he
    simp [GetPackageManifest, PackageInfo.default]
  have hfresh : ∀ cid, (∀ m ∈ cfg, m.id ≠ cid ∧ cid ∉ m.requiredPackages) →
      Fresh cid (linkedTbl env c [] cfg) := by
    intro cid hc
    apply determineDependencies_fresh _ hn0 h0
    · intro h
      obtain ⟨e, he, hid⟩ := List.mem_map.1 h
      obtain ⟨m, hm, rfl⟩ := hsrc e he
      simp only [resolve_id] at hid
      exact (hc m hm).1 hid
    · intro e he
      obtain ⟨m, hm, rfl⟩ := hsrc e he
      simp only [resolve_requiredPackages]
      exact (hc m hm).2
  have hl1 : Linked (linkedTbl env c [] cfg) := determineDependencies_linked _ hn0 h0
  have hf1 : Fresh obsoleteId (linkedTbl env c [] cfg) :=
    hfresh obsoleteId (fun m hm => ⟨(hres m hm).1, (hres m hm).2.2.1⟩)
  have hf2 : Fresh otherId (linkedTbl env c [] cfg) :=
    hfresh otherId (fun m hm => ⟨(hres m hm).2.1, (hres m hm).2.2.2⟩)
  have hl2 := createContainerTbl_linked env c (obsoleteCond env c) piObsolete _ hl1 hf1 rfl rfl
  have hf3 := createContainerTbl_fresh env c (obsoleteCond env c) piObsolete _ hl1.1 hf1.1
    rfl rfl otherId (Ne.symm obsoleteId_ne_otherId) hf2
  exact createContainerTbl_linked env c otherCond piOther _ hl2 hf3 rfl rfl

/-! ## The manifest data after the synthesis -/

theorem markMembers_manifestOf (cond : PackageInfo → Bool) (cid : String)
    (tbl : PackageDefinitionTable) :
    (markMembers cond cid tbl).map manifestOf = tbl.map manifestOf := by
  unfold markMembers
  rw [List.map_map]
  apply List.map_congr_left
  intro e _
  by_cases hc : cond e = true <;> simp [hc]

theorem createContainerTbl_manifestOf (env : Env) (c : ComboCfg) (cond : PackageInfo → Bool)
    (pi : PackageInfo) (tbl : PackageDefinitionTable) (hn : (keys tbl).Nodup) :
    ∃ extra, (createContainerTbl env c cond pi tbl).map manifestOf = tbl.map manifestOf ++ extra ∧
      (∀ x ∈ extra, x.id ∉ keys tbl ∧ x.id = pi.id) ∧
      (keys (createContainerTbl env c cond pi tbl)).Nodup := by
  rw [createContainerTbl_eq env c cond pi tbl hn]
  split
  · by_cases hk : pi.id ∈ keys tbl
    · refine ⟨[], ?_, by simp, ?_⟩
      · rw [definePackageTbl_manifestOf, keys_markMembers, if_pos hk, markMembers_manifestOf]
        simp
      · rw [keys_eq_manifest_ids, definePackageTbl_manifestOf, keys_markMembers, if_pos hk,
          markMembers_manifestOf, ← keys_eq_manifest_ids]
        exact hn
    · refine ⟨[manifestOf { pi with requiredPackages := pi.requiredPackages ++ memberIds cond tbl }],
        ?_, ?_, ?_⟩
      · rw [definePackageTbl_manifestOf, keys_markMembers, if_neg hk, markMembers_manifestOf]
      · intro x hx
        simp only [List.mem_singleton] at hx
        subst hx
        exact ⟨hk, rfl⟩
      · rw [keys_eq_manifest_ids, definePackageTbl_manifestOf, keys_markMembers, if_neg hk,
          markMembers_manifestOf, List.map_append, ← keys_eq_manifest_ids, List.nodup_append]
        refine ⟨hn, by simp, ?_⟩
        intro a ha hb
        simp only [List.map_cons, List.map_nil, List.mem_singleton] at hb
        subst hb
        exact hk ha
  · exact ⟨[], by rw [markMembers_manifestOf]; simp, by simp,
      by rw [keys_markMembers]; exact hn⟩

theorem LoadCfgTbl_manifestOf (env : Env) (c : ComboCfg) (cfg : Cfg) :
    ∃ extra, (LoadCfgTbl env c [] cfg).map manifestOf = merged env [] cfg ++ extra ∧
      (∀ x ∈ extra, x.id ∉ (merged env [] cfg).map (fun m => m.id)) ∧
      (∀ x ∈ extra, x.id = obsoleteId ∨ x.id = otherId) := by
  have hn0 : (keys (cfg.foldl (loadKeyTbl env c) [])).Nodup :=
    loadKeysTbl_nodup env c cfg [] (by simp)
  have hn1 : (keys (linkedTbl env c [] cfg)).Nodup := by
    unfold linkedTbl; rw [keys_determineDependencies]; exact hn0
  have hv1 : (linkedTbl env c [] cfg).map manifestOf = merged env [] cfg := by
    unfold linkedTbl
    rw [determineDependencies_manifestOf, loadKeysTbl_manifestOf]
    rfl
  obtain ⟨e1, h1, h1p, hn2⟩ :=
    createContainerTbl_manifestOf env c (obsoleteCond env c) piObsolete _ hn1
  obtain ⟨e2, h2, h2p, _⟩ := createContainerTbl_manifestOf env c otherCond piOther _ hn2
  refine ⟨e1 ++ e2, ?_, ?_, ?_⟩
  · unfold LoadCfgTbl
    rw [h2, h1, hv1, List.append_assoc]
  · intro x hx
    rw [← hv1, ← keys_eq_manifest_ids]
    rcases List.mem_append.1 hx with hx | hx
    · exact (h1p x hx).1
    · intro hk
      apply (h2p x hx).1
      rw [keys_eq_manifest_ids, h1, List.map_append, List.mem_append, ← keys_eq_manifest_ids]
      exact Or.inl hk
  · intro x hx
    rcases List.mem_append.1 hx with hx | hx
    · exact Or.inl (h1p x hx).2
    · exact Or.inr (h2p x hx).2

/-- C3, as amended.  After a full load into an empty store whose manifest records use
neither reserved container id (as an id or as a dependency), the keys of the table are
unique and for all packages `P`, `Q` of the table, ordinary or synthetic, `P.id` occurs
in `Q.requiredBy` as often as `Q.id` occurs in `P.requiredPackages`; every `requiredBy`
entry is the id of a package of the table that lists the owner as a dependency, and
every package of the table is defined by a manifest record or is one of the two
containers, so that a dependency on an id absent from the table leaves no entry
anywhere.  The load is a total function: a dangling dependency cannot make it fail. -/
theorem Load_dependency_symmetry (env : Env) (s : Store)
    (hnew : s.loadedAllPackageManifests = false) (hempty : s.packageTable = [])
    (hres : ∀ m ∈ readManifests env, reservedFree m) :
    (keys (Load env s).packageTable).Nodup ∧
    (∀ P ∈ (Load env s).packageTable, ∀ Q ∈ (Load env s).packageTable,
      Q.requiredBy.count P.id = P.requiredPackages.count Q.id) ∧
    (∀ Q ∈ (Load env s).packageTable, ∀ x ∈ Q.requiredBy,
      ∃ P ∈ (Load env s).packageTable, P.id = x ∧ Q.id ∈ P.requiredPackages) ∧
    (∀ P ∈ (Load env s).packageTable,
      (∃ m ∈ readManifests env, m.id = P.id) ∨ P.id = obsoleteId ∨ P.id = otherId) := by
  have ht := (Load_tables env s hnew).1
  rw [hempty] at ht
  have hl := LoadCfgTbl_linked env (loadedCfg env s.comboCfg) (readManifests env) hres
  rw [← ht] at hl
  refine ⟨hl.1, hl.2.1, ?_, ?_⟩
  rotate_left
  · intro P hP
    obtain ⟨extra, hv, _, hx⟩ := LoadCfgTbl_manifestOf env (loadedCfg env s.comboCfg)
      (readManifests env)
    have hm : manifestOf P ∈ (Load env s).packageTable.map manifestOf :=
      List.mem_map_of_mem _ hP
    rw [ht, hv] at hm
    rcases List.mem_append.1 hm with hm | hm
    · left
      obtain ⟨r, hr, hrp⟩ := merged_eq env (readManifests env) []
      rw [hr, List.nil_append] at hm
      exact ⟨manifestOf P, (hrp _ hm).1, rfl⟩
    · right
      exact hx _ hm
  intro Q hQ x hx
  have hk := hl.2.2 Q hQ x hx
  obtain ⟨P, hP, hid⟩ := List.mem_map.1 hk
  refine ⟨P, hP, hid, ?_⟩
  have hc := hl.2.1 P hP Q hQ
  rw [hid] at hc
  have hpos : 0 < Q.requiredBy.count x := List.count_pos_iff.2 hx
  rw [hc] at hpos
  exact List.count_pos_iff.1 hpos

/-- Witness for `Load_dependency_symmetry`: the packages "base" and "ext" of the spec,
"ext" requiring "base", loaded into the empty store. -/
theorem Load_dependency_symmetry_witness :
    (Store.empty.loadedAllPackageManifests = false ∧ Store.empty.packageTable = [] ∧
      ∀ m ∈ readManifests envBaseExt, reservedFree m) ∧
    ((keys (Load envBaseExt Store.empty).packageTable).Nodup ∧
    (∀ P ∈ (Load envBaseExt Store.empty).packageTable,
      ∀ Q ∈ (Load envBaseExt Store.empty).packageTable,
        Q.requiredBy.count P.id = P.requiredPackages.count Q.id) ∧
    (∀ Q ∈ (Load envBaseExt Store.empty).packageTable, ∀ x ∈ Q.requiredBy,
      ∃ P ∈ (Load envBaseExt Store.empty).packageTable, P.id = x ∧ Q.id ∈ P.requiredPackages) ∧
    (∀ P ∈ (Load envBaseExt Store.empty).packageTable,
      (∃ m ∈ readManifests envBaseExt, m.id = P.id) ∨ P.id = obsoleteId ∨ P.id = otherId)) :=
  ⟨⟨rfl, rfl, by decide⟩, Load_dependency_symmetry envBaseExt Store.empty rfl rfl (by decide)⟩

/-- C3 as stated fails.  The package "p" lists the reserved id of the "Uncategorized"
container as a dependency.  After the load the container is in the table and "p" is in
the table, the container's id occurs once in the `requiredPackages` of "p", and the id
of "p" does not occur in the container's `requiredBy`. -/
theorem Load_dependency_symmetry_counterexample :
    ∃ P ∈ (Load envReservedDep Store.empty).packageTable,
      ∃ Q ∈ (Load envReservedDep Store.empty).packageTable,
        P.id = "p" ∧ Q.id = otherId ∧
        P.requiredPackages.count Q.id = 1 ∧ Q.requiredBy.count P.id = 0 := by
  decide

/-! ## C6: the "Obsolete" container -/

theorem LoadCfg_eq_synthesis (env : Env) (s : Store) (cfg : Cfg) :
    LoadCfg env s cfg = createOther env (createObsolete env (linkedStore env s cfg)) := rfl

theorem linkedStore_packageTable (env : Env) (s : Store) (cfg : Cfg) :
    (linkedStore env s cfg).packageTable
      = linkedTbl env (loadedCfg env s.comboCfg) s.packageTable cfg := by
  unfold linkedStore linkedTbl
  simp only []
  rw [(loadKeys_step env s cfg).1]

theorem find_markMembers (cond : PackageInfo → Bool) (cid : String)
    (tbl : PackageDefinitionTable) (k : String) :
    find (markMembers cond cid tbl) k
      = (find tbl k).map (fun e => if cond e = true then pushRequiredBy cid e else e) := by
  unfold markMembers
  apply find_map
  intro e
  split <;> rfl

theorem find_singleton_ne (e : PackageInfo) (k : String) (h : e.id ≠ k) : find [e] k = none := by
  simp [find, h]

theorem find_singleton_self (e : PackageInfo) : find [e] e.id = some e := by
  simp [find]

theorem IsObsolete_Load (env : Env) (s : Store) (hnew : s.loadedAllPackageManifests = false)
    (id : String) :
    (IsObsolete env (Load env s) id).1
      = isObsoleteIn env.session.IsAdminMode (loadedCfg env s.comboCfg) id := by
  rw [IsObsolete_val]
  have h : (Load env s).comboCfg = (LoadCfg env s (readManifests env)).comboCfg := by
    unfold Load
    simp [hnew]
  rw [h, (LoadCfg_step env s (readManifests env)).cfg]

theorem otherCond_containerEntry (env : Env) (c : ComboCfg) (pi : PackageInfo)
    (members : List String) (hm : members ≠ []) (hfiles : pi.GetNumFiles = 0) :
    otherCond (containerEntry env c pi members) = false := by
  have h1 : (containerEntry env c pi members).IsContainer = true := by
    unfold PackageInfo.IsContainer containerEntry
    rw [resolve_requiredPackages, resolve_GetNumFiles]
    cases members with
    | nil => exact absurd rfl hm
    | cons a t =>
      have : ({ pi with requiredPackages := a :: t } : PackageInfo).GetNumFiles = 0 := hfiles
      simp [this]
  simp [otherCond, h1]

theorem otherCond_pushRequiredBy (cid : String) (e : PackageInfo) :
    otherCond (pushRequiredBy cid e) = false := by
  simp [otherCond, pushRequiredBy, PackageInfo.IsContained]

/-- The table after the synthesis, seen from the table `T1` the synthesis starts with,
when `T1` has unique keys and neither reserved id is a key. -/
theorem synthesis_find (env : Env) (c : ComboCfg) (T1 : PackageDefinitionTable)
    (hn : (keys T1).Nodup) (ho : obsoleteId ∉ keys T1) (hu : otherId ∉ keys T1) :
    (obsoleteId ∈ keys (createContainerTbl env c otherCond piOther
        (createContainerTbl env c (obsoleteCond env c) piObsolete T1))
      ↔ memberIds (obsoleteCond env c) T1 ≠ []) ∧
    (∀ C, find (createContainerTbl env c otherCond piOther
        (createContainerTbl env c (obsoleteCond env c) piObsolete T1)) obsoleteId = some C →
      C.requiredPackages = memberIds (obsoleteCond env c) T1) ∧
    (∀ P ∈ T1, obsoleteCond env c P = true →
      find (createContainerTbl env c otherCond piOther
        (createContainerTbl env c (obsoleteCond env c) piObsolete T1)) P.id
        = some (pushRequiredBy obsoleteId P)) := by
  have hshape1 := createContainerTbl_shape env c (obsoleteCond env c) piObsolete T1 hn ho rfl
  have hpi : piObsolete.id = obsoleteId := rfl
  have hpu : piOther.id = otherId := rfl
  by_cases hm : memberIds (obsoleteCond env c) T1 = []
  · -- no member: the first pass leaves the table alone
    rw [if_pos hm] at hshape1
    rw [hshape1]
    have hshape2 := createContainerTbl_shape env c otherCond piOther T1 hn hu rfl
    have hk2 : obsoleteId ∉ keys (createContainerTbl env c otherCond piOther T1) := by
      rw [hshape2]
      split
      · exact ho
      · rw [keys_append, keys_markMembers, List.mem_append]
        intro h
        rcases h with h | h
        · exact ho h
        · simp only [keys, List.map_cons, List.map_nil, List.mem_singleton, containerEntry,
            resolve_id] at h
          exact obsoleteId_ne_otherId h
    refine ⟨⟨fun h => absurd h hk2, fun h => absurd hm h⟩, ?_, ?_⟩
    · intro C hC
      rw [(find_eq_none_iff _ _).2 hk2] at hC
      cases hC
    · intro P hP hc
      have : P.id ∈ memberIds (obsoleteCond env c) T1 := (mem_memberIds hn _ hP).2 hc
      rw [hm] at this
      cases this
  · rw [if_neg hm] at hshape1
    have hOid : (containerEntry env c piObsolete (memberIds (obsoleteCond env c) T1)).id
        = obsoleteId := by simp [containerEntry, hpi]
    have hn2 : (keys (createContainerTbl env c (obsoleteCond env c) piObsolete T1)).Nodup := by
      rw [hshape1, keys_append, keys_markMembers, List.nodup_append]
      refine ⟨hn, by simp [keys], ?_⟩
      intro a ha hb
      simp only [keys, List.map_cons, List.map_nil, List.mem_singleton, hOid] at hb
      subst hb
      exact ho ha
    have hu2 : piOther.id ∉ keys (createContainerTbl env c (obsoleteCond env c) piObsolete T1) := by
      rw [hshape1, keys_append, keys_markMembers, List.mem_append]
      intro h
      rcases h with h | h
      · exact hu h
      · simp only [keys, List.map_cons, List.map_nil, List.mem_singleton, hOid] at h
        exact obsoleteId_ne_otherId h.symm
    have hshape2 := createContainerTbl_shape env c otherCond piOther _ hn2 hu2 rfl
    -- lookups in the final table go through the second pass
    have hfind : ∀ k, k ≠ otherId →
        find (createContainerTbl env c otherCond piOther
          (createContainerTbl env c (obsoleteCond env c) piObsolete T1)) k
        = (find (createContainerTbl env c (obsoleteCond env c) piObsolete T1) k).map
            (fun e => if otherCond e = true then pushRequiredBy piOther.id e else e) := by
      intro k hk
      rw [hshape2]
      split
      · rename_i hm2
        have h := find_markMembers otherCond piOther.id
          (createContainerTbl env c (obsoleteCond env c) piObsolete T1) k
        rw [markMembers_of_no_member otherCond piOther.id _ hm2] at h
        exact h
      · rw [find_append, find_markMembers, find_singleton_ne _ _
          (by simp only [containerEntry, resolve_id]; exact fun h => hk h.symm)]
        cases find (createContainerTbl env c (obsoleteCond env c) piObsolete T1) k <;> rfl
    have hfindO : find (createContainerTbl env c (obsoleteCond env c) piObsolete T1) obsoleteId
        = some (containerEntry env c piObsolete (memberIds (obsoleteCond env c) T1)) := by
      rw [hshape1, find_append, find_markMembers, (find_eq_none_iff _ _).2 ho]
      simp only [Option.map_none', Option.none_or]
      rw [← hOid]
      exact find_singleton_self _
    have hfinalO : find (createContainerTbl env c otherCond piOther
          (createContainerTbl env c (obsoleteCond env c) piObsolete T1)) obsoleteId
        = some (containerEntry env c piObsolete (memberIds (obsoleteCond env c) T1)) := by
      rw [hfind obsoleteId obsoleteId_ne_otherId, hfindO]
      simp only [Option.map_some']
      rw [otherCond_containerEntry env c piObsolete _ hm rfl]
      rfl
    refine ⟨⟨fun _ => hm, fun _ => ?_⟩, ?_, ?_⟩
    · rw [← find_isSome_iff, hfinalO]; rfl
    · intro C hC
      rw [hfinalO] at hC
      rw [← Option.some.inj hC]
      simp [containerEntry]
    · intro P hP hc
      have hPid : P.id ≠ otherId := by
        intro h; apply hu; rw [← h]; exact List.mem_map_of_mem _ hP
      have hPo : P.id ≠ obsoleteId := by
        intro h; apply ho; rw [← h]; exact List.mem_map_of_mem _ hP
      rw [hfind P.id hPid, hshape1, find_append, find_markMembers, find_of_mem_nodup hn hP]
      simp [hc, Option.or, otherCond_pushRequiredBy, hpi]

/-- C6, as amended.  After a full load into an empty store whose manifest records do not
define a reserved container id, with `T1` the table the synthesis starts from (after
the dependency pass): the "Obsolete" container is in the table exactly when some
package of `T1` is neither contained nor a container and flagged obsolete by the
scoped-store lookup `IsObsolete(id)`; then its `requiredPackages` are exactly the ids of
those packages, in table order, and each of them ends up with a `requiredBy` list that
holds the container's id and nothing else, is no container, and keeps its manifest data
and its `isObsolete` field.  Outside the installed-from-the-start mode the lookup and
the `isObsolete` field of every package agree.  With leaf packages "a" (obsolete) and
"b" (not obsolete) the container's `requiredPackages` is `["a"]`; with no obsolete leaf
the table has no such entry. -/
theorem Load_obsolete_container (env : Env) (s : Store)
    (hnew : s.loadedAllPackageManifests = false) (hempty : s.packageTable = [])
    (hres : ∀ m ∈ readManifests env, m.id ≠ obsoleteId ∧ m.id ≠ otherId) :
    (obsoleteId ∈ keys (Load env s).packageTable ↔
      ∃ P ∈ (linkedStore env s (readManifests env)).packageTable,
        isObsoleteMember env (Load env s) P = true) ∧
    (∀ C, find (Load env s).packageTable obsoleteId = some C →
      C.requiredPackages
        = keys ((linkedStore env s (readManifests env)).packageTable.filter
            (isObsoleteMember env (Load env s)))) ∧
    (∀ P ∈ (linkedStore env s (readManifests env)).packageTable,
      isObsoleteMember env (Load env s) P = true →
      ∃ M, find (Load env s).packageTable P.id = some M ∧
        M.requiredBy = [obsoleteId] ∧ M.IsContainer = false ∧
        manifestOf M = manifestOf P ∧ M.isObsolete = P.isObsolete) ∧
    (env.session.IsMiKTeXDirect = false →
      ∀ P ∈ (linkedStore env s (readManifests env)).packageTable,
        P.isObsolete = (IsObsolete env (Load env s) P.id).1) ∧
    ((TryGetPackage envObsoleteLeaf Store.empty obsoleteId).1.1 = true ∧
      (TryGetPackage envObsoleteLeaf Store.empty obsoleteId).1.2.requiredPackages = ["a"]) ∧
    (TryGetPackage envBaseExt Store.empty obsoleteId).1.1 = false := by
  have hc : isObsoleteMember env (Load env s)
      = obsoleteCond env (loadedCfg env s.comboCfg) := by
    funext P
    simp only [isObsoleteMember, obsoleteCond, IsObsolete_Load env s hnew]
  have hT1 := linkedStore_packageTable env s (readManifests env)
  rw [hempty] at hT1
  have hF := (Load_tables env s hnew).1
  rw [hempty] at hF
  have hn0 : (keys ((readManifests env).foldl
      (loadKeyTbl env (loadedCfg env s.comboCfg)) [])).Nodup :=
    loadKeysTbl_nodup env _ _ [] (by simp)
  have hsrc : ∀ e ∈ (readManifests env).foldl (loadKeyTbl env (loadedCfg env s.comboCfg)) [],
      ∃ m ∈ readManifests env,
        e = resolve env (loadedCfg env s.comboCfg) (GetPackageManifest m)
          (GetPackageManifest m) := by
    intro e he
    rcases loadKeysTbl_mem env _ _ [] he with h | ⟨m, hm, _, hr⟩
    · cases h
    · exact ⟨m, hm, hr⟩
  have h0 : ∀ e ∈ (readManifests env).foldl (loadKeyTbl env (loadedCfg env s.comboCfg)) [],
      e.requiredBy = [] := by
    intro e he
    obtain ⟨m, _, rfl⟩ := hsrc e he
    simp [GetPackageManifest, PackageInfo.default]
  have hn1 : (keys (linkedTbl env (loadedCfg env s.comboCfg) [] (readManifests env))).Nodup := by
    unfold linkedTbl; rw [keys_determineDependencies]; exact hn0
  have hkey : ∀ cid, (∀ m ∈ readManifests env, m.id ≠ cid) →
      cid ∉ keys (linkedTbl env (loadedCfg env s.comboCfg) [] (readManifests env)) := by
    intro cid hcid h
    unfold linkedTbl at h
    rw [keys_determineDependencies] at h
    obtain ⟨e, he, hid⟩ := List.mem_map.1 h
    obtain ⟨m, hm, rfl⟩ := hsrc e he
    simp only [resolve_id] at hid
    exact hcid m hm hid
  have hsyn := synthesis_find env (loadedCfg env s.comboCfg) _ hn1
    (hkey obsoleteId (fun m hm => (hres m hm).1)) (hkey otherId (fun m hm => (hres m hm).2))
  rw [hT1, hF, hc]
  unfold LoadCfgTbl
  refine ⟨?_, ?_, ?_, ?_, by decide, by decide⟩
  · rw [hsyn.1]
    constructor
    · intro h
      cases hl : (linkedTbl env (loadedCfg env s.comboCfg) [] (readManifests env)).filter
          (obsoleteCond env (loadedCfg env s.comboCfg)) with
      | nil => simp [memberIds, hl] at h
      | cons a t =>
        have ha : a ∈ (linkedTbl env (loadedCfg env s.comboCfg) [] (readManifests env)).filter
            (obsoleteCond env (loadedCfg env s.comboCfg)) := by rw [hl]; exact List.mem_cons_self _ _
        exact ⟨a, (List.mem_filter.1 ha).1, (List.mem_filter.1 ha).2⟩
    · rintro ⟨P, hP, hcP⟩ h
      have := (mem_memberIds hn1 _ hP).2 hcP
      rw [h] at this
      cases this
  · intro C hC
    exact hsyn.2.1 C hC
  · intro P hP hcP
    refine ⟨pushRequiredBy obsoleteId P, hsyn.2.2 P hP hcP, ?_, ?_, rfl, rfl⟩
    · have : P.requiredBy = [] := by
        simp only [obsoleteCond, PackageInfo.IsContained, Bool.and_eq_true, Bool.not_eq_true',
          Bool.not_eq_false', List.isEmpty_iff] at hcP
        exact hcP.1.1
      simp [pushRequiredBy, this]
    · have : P.IsContainer = false := by
        simp only [obsoleteCond, Bool.and_eq_true, Bool.not_eq_true'] at hcP
        exact hcP.1.2
      exact this
  · intro hd P hP
    rw [IsObsolete_Load env s hnew]
    unfold linkedTbl at hP
    obtain ⟨e0, he0, hid, _, _, _, hob⟩ := determineDependencies_fields _ h0 hP
    obtain ⟨m, _, rfl⟩ := hsrc e0 he0
    rw [hob, hid]
    simp [resolve, hd]

/-- Witness for `Load_obsolete_container`: the leaf packages "a" (flagged obsolete) and
"b" of `envObsoleteLeaf`, loaded into the empty store. -/
theorem Load_obsolete_container_witness :
    (Store.empty.loadedAllPackageManifests = false ∧ Store.empty.packageTable = [] ∧
      ∀ m ∈ readManifests envObsoleteLeaf, m.id ≠ obsoleteId ∧ m.id ≠ otherId) ∧
    (obsoleteId ∈ keys (Load envObsoleteLeaf Store.empty).packageTable ↔
      ∃ P ∈ (linkedStore envObsoleteLeaf Store.empty (readManifests envObsoleteLeaf)).packageTable,
        isObsoleteMember envObsoleteLeaf (Load envObsoleteLeaf Store.empty) P = true) ∧
    (∀ C, find (Load envObsoleteLeaf Store.empty).packageTable obsoleteId = some C →
      C.requiredPackages
        = keys ((linkedStore envObsoleteLeaf Store.empty
            (readManifests envObsoleteLeaf)).packageTable.filter
              (isObsoleteMember envObsoleteLeaf (Load envObsoleteLeaf Store.empty)))) :=
  ⟨⟨rfl, rfl, by decide⟩,
   (Load_obsolete_container envObsoleteLeaf Store.empty rfl rfl (by decide)).1,
   (Load_obsolete_container envObsoleteLeaf Store.empty rfl rfl (by decide)).2.1⟩

/-- C6 as stated fails, in two ways.  In a session that is installed from the start,
with "a" flagged obsolete in the scoped store, the "Obsolete" container is created with
`requiredPackages = ["a"]` although the `isObsolete` field of every package of the
table, "a" included, is false.  And when the manifest itself defines a package with the
reserved id, the table holds an entry with that id although no package is obsolete. -/
theorem Load_obsolete_container_counterexample :
    (obsoleteId ∈ keys (Load envObsoleteDirect Store.empty).packageTable ∧
      (TryGetPackage envObsoleteDirect Store.empty obsoleteId).1.2.requiredPackages = ["a"] ∧
      (∀ P ∈ (Load envObsoleteDirect Store.empty).packageTable, P.isObsolete = false) ∧
      (∀ P ∈ (linkedStore envObsoleteDirect Store.empty
          (readManifests envObsoleteDirect)).packageTable, P.isObsolete = false)) ∧
    (obsoleteId ∈ keys (Load envReservedId Store.empty).packageTable ∧
      (∀ P ∈ (Load envReservedId Store.empty).packageTable, P.isObsolete = false) ∧
      (∀ P ∈ (linkedStore envReservedId Store.empty (readManifests envReservedId)).packageTable,
        P.isObsolete = false ∧
        isObsoleteMember envReservedId (Load envReservedId Store.empty) P = false)) := by
  decide

/-! ## C1: DecrementFileRefCount -/

/-- A load never touches the ownership table: the install test of `Load(Cfg&)` reads
the record that comes from the manifest, which is never installed. -/
theorem Load_installedFileInfoTable (env : Env) (s : Store) :
    (Load env s).installedFileInfoTable = s.installedFileInfoTable := by
  cases h : s.loadedAllPackageManifests with
  | true => rw [Load_of_loaded env s h]
  | false => exact (Load_tables env s h).2

/-- C1. `DecrementFileRefCount(path)`, which first runs the guarded `Load()`, fails
with InvalidState exactly when `path` has no ownership entry or its `refCount` is 0,
and then leaves the store as `Load()` left it (the ownership table is untouched, there
is no clamping); otherwise the old count `n + 1` of `path` becomes `n`, `n` is
returned, every other ownership entry and the rest of the store stay as they were.
On a store that is already loaded `Load()` itself changes nothing, and on any store it
leaves the ownership table as it was, so that the test and the frame are those of the
table the call started with. -/
theorem DecrementFileRefCount_contract (env : Env) (s : Store) (path : String) :
    ((DecrementFileRefCount env s path).1 = Except.error Error.InvalidState ↔
        ((Load env s).installedFileInfoTable path = none ∨
          (Load env s).installedFileInfoTable path = some { refCount := 0 })) ∧
    ((∃ n, (DecrementFileRefCount env s path).1 = Except.ok n) ↔
        ¬ ((Load env s).installedFileInfoTable path = none ∨
          (Load env s).installedFileInfoTable path = some { refCount := 0 })) ∧
    ((DecrementFileRefCount env s path).1 = Except.error Error.InvalidState →
        (DecrementFileRefCount env s path).2 = Load env s) ∧
    (∀ n, (Load env s).installedFileInfoTable path = some { refCount := n + 1 } →
        (DecrementFileRefCount env s path).1 = Except.ok n ∧
        (DecrementFileRefCount env s path).2.installedFileInfoTable path
          = some { refCount := n } ∧
        (∀ q, q ≠ path →
          (DecrementFileRefCount env s path).2.installedFileInfoTable q
            = (Load env s).installedFileInfoTable q) ∧
        (DecrementFileRefCount env s path).2.packageTable = (Load env s).packageTable ∧
        (DecrementFileRefCount env s path).2.comboCfg = (Load env s).comboCfg) ∧
    (s.loadedAllPackageManifests = true → Load env s = s) ∧
    (Load env s).installedFileInfoTable = s.installedFileInfoTable := by
  refine ⟨?_, ?_, ?_, ?_, Load_of_loaded env s, Load_installedFileInfoTable env s⟩
  · unfold DecrementFileRefCount
    cases h : (Load env s).installedFileInfoTable path with
    | none => simp [h]
    | some it =>
      obtain ⟨n⟩ := it
      by_cases hn : n = 0
      · subst hn; simp [h]
      · simp [h, hn]
  · unfold DecrementFileRefCount
    cases h : (Load env s).installedFileInfoTable path with
    | none => simp [h]
    | some it =>
      obtain ⟨n⟩ := it
      by_cases hn : n = 0
      · subst hn; simp [h]
      · simp [h, hn]
  · unfold DecrementFileRefCount
    cases h : (Load env s).installedFileInfoTable path with
    | none => simp [h]
    | some it =>
      obtain ⟨n⟩ := it
      by_cases hn : n = 0
      · subst hn; simp [h]
      · simp [h, hn]
  · intro n h
    unfold DecrementFileRefCount
    simp only [h]
    refine ⟨by simp, by simp, ?_, by simp, by simp⟩
    intro q hq
    simp [hq]

/-! ## C11: IncrementFileRefCounts and GetFileRefCount -/

theorem castTimeT_allOnes : castTimeT 0xffffffffffffffff = -1 := by decide

theorem depReq_min_le (p : String) (st : DepState) (req : String) :
    (depReq p st req).timeInstalledMin ≤ st.timeInstalledMin := by
  unfold depReq
  cases find st.tbl req with
  | none => exact Int.le_refl _
  | some it3 =>
    simp only []
    split
    · rename_i h; exact Int.le_of_lt h
    · exact Int.le_refl _

theorem depReqs_min_le (p : String) (reqs : List String) (st : DepState) :
    (reqs.foldl (depReq p) st).timeInstalledMin ≤ st.timeInstalledMin := by
  induction reqs generalizing st with
  | nil => exact Int.le_refl _
  | cons r rest ih =>
    simp only [List.foldl_cons]
    exact Int.le_trans (ih _) (depReq_min_le p st r)

/-- On a signed `time_t` the guard `timeInstalledMin > 0` of the dependency pass never
holds: the minimum starts at `static_cast<time_t>(0xffffffffffffffffULL)`, which is -1,
and can only decrease.  One round of the pass therefore only appends back-edges. -/
theorem depPkg_eq (tbl : PackageDefinitionTable) (p : String) :
    depPkg tbl p = tbl.map (addRB (reqsOf tbl p) p) := by
  unfold depPkg
  cases hf : find tbl p with
  | none =>
    simp only [reqsOf, hf, Option.map_none', Option.getD_none]
    conv => lhs; rw [← List.map_id tbl]
    apply List.map_congr_left
    intro e _
    simp [addRB_nil]
  | some pkg =>
    have hr : reqsOf tbl p = pkg.requiredPackages := by simp [reqsOf, hf]
    have hmin := depReqs_min_le p pkg.requiredPackages
      { tbl := tbl, timeInstalledMin := castTimeT 0xffffffffffffffff, timeInstalledMax := 0 }
    simp only [castTimeT_allOnes] at hmin
    have hng : ¬ (pkg.requiredPackages.foldl (depReq p)
        { tbl := tbl, timeInstalledMin := castTimeT 0xffffffffffffffff,
          timeInstalledMax := 0 }).timeInstalledMin > 0 := by
      intro h
      have : (0 : Int) < -1 := Int.lt_of_lt_of_le h hmin
      exact absurd this (by decide)
    simp only [hng, if_false, hr]
    exact depReqs_tbl p pkg.requiredPackages _

theorem reqsOf_depPkg_eq (tbl : PackageDefinitionTable) (p : String) :
    reqsOf (tbl.map (addRB (reqsOf tbl p) p)) = reqsOf tbl :=
  reqsOf_map tbl _ (fun _ => rfl) (fun _ => rfl)

theorem depPkgs_eq (ks : List String) (tbl : PackageDefinitionTable) :
    ks.foldl depPkg tbl = tbl.map (addRBs (reqsOf tbl) ks) := by
  induction ks generalizing tbl with
  | nil =>
    simp only [List.foldl_nil]
    conv => lhs; rw [← List.map_id tbl]
    apply List.map_congr_left
    intro e _
    simp [addRBs, rbOf]
  | cons p rest ih =>
    simp only [List.foldl_cons]
    rw [depPkg_eq, ih, reqsOf_depPkg_eq, List.map_map]
    apply List.map_congr_left
    intro e _
    simp [addRBs, addRB, rbOf, List.flatMap_cons]

/-- The dependency pass in closed form: every entry gets the back-edges of the
packages that require it, and nothing else changes. -/
theorem determineDependencies_eq (tbl : PackageDefinitionTable) :
    determineDependencies tbl = tbl.map (addRBs (reqsOf tbl) (keys tbl)) :=
  depPkgs_eq (keys tbl) tbl

/-- The dependency pass leaves every `timeInstalled` as it was. -/
theorem determineDependencies_timeInstalled (tbl : PackageDefinitionTable) :
    (determineDependencies tbl).map (fun e => (e.id, e.timeInstalled))
      = tbl.map (fun e => (e.id, e.timeInstalled)) := by
  rw [determineDependencies_eq, List.map_map]
  rfl

set_option maxRecDepth 16000 in
/-- C13, evaluated.  The pure container "c" requires "q"; "q" is installed at time 100
and is in the table, so the maximum install time among the resolved dependencies of "c"
is 100.  After the load "c" still has the invalid sentinel as `timeInstalled`, not 100:
`timeInstalledMin` starts at `static_cast<time_t>(0xffffffffffffffffULL)`, which is -1
on the signed `time_t`, no install time is smaller, and the guard
`timeInstalledMin > 0` of the propagation is false. -/
theorem dependency_pass_container_time :
    (TryGetPackage envContainer Store.empty "c").1.1 = true ∧
    (TryGetPackage envContainer Store.empty "c").1.2.IsPureContainer = true ∧
    (TryGetPackage envContainer Store.empty "c").1.2.requiredPackages = ["q"] ∧
    (TryGetPackage envContainer Store.empty "q").1.1 = true ∧
    (TryGetPackage envContainer Store.empty "q").1.2.timeInstalled = 100 ∧
    (TryGetPackage envContainer Store.empty "c").1.2.timeInstalled = InvalidTimeT ∧
    (determineDependencies (loadKeys envContainer Store.empty
        (readManifests envContainer)).packageTable).map (fun e => (e.id, e.timeInstalled))
      = [("c", InvalidTimeT), ("q", 100)] := by
  decide

/-! ## C14: the "Uncategorized" container -/

theorem LoadCfg_eq_createOther (env : Env) (s : Store) (cfg : Cfg) :
    LoadCfg env s cfg = createOther env (obsoleteStore env s cfg) := rfl

theorem obsoleteStore_packageTable (env : Env) (s : Store) (cfg : Cfg) :
    (obsoleteStore env s cfg).packageTable
      = createContainerTbl env (loadedCfg env s.comboCfg)
          (obsoleteCond env (loadedCfg env s.comboCfg)) piObsolete
          (linkedTbl env (loadedCfg env s.comboCfg) s.packageTable cfg) := by
  unfold obsoleteStore
  have h := createObsolete_step env (linkedStore env s cfg)
  have hc : (linkedStore env s cfg).comboCfg = (loadKeys env s cfg).comboCfg := rfl
  rw [h.1, hc, (loadKeys_step env s cfg).cfg, linkedStore_packageTable]

theorem obsoletePass_keys (env : Env) (c : ComboCfg) (T1 : PackageDefinitionTable)
    (hn : (keys T1).Nodup) (ho : obsoleteId ∉ keys T1) (hu : otherId ∉ keys T1) :
    (keys (createContainerTbl env c (obsoleteCond env c) piObsolete T1)).Nodup ∧
    otherId ∉ keys (createContainerTbl env c (obsoleteCond env c) piObsolete T1) := by
  rw [createContainerTbl_shape env c (obsoleteCond env c) piObsolete T1 hn ho rfl]
  have hOid : (containerEntry env c piObsolete (memberIds (obsoleteCond env c) T1)).id
      = obsoleteId := by simp [containerEntry, piObsolete]
  split
  · exact ⟨hn, hu⟩
  · constructor
    · rw [keys_append, keys_markMembers, List.nodup_append]
      refine ⟨hn, by simp [keys], ?_⟩
      intro a ha hb
      simp only [keys, List.map_cons, List.map_nil, List.mem_singleton, hOid] at hb
      subst hb
      exact ho ha
    · rw [keys_append, keys_markMembers, List.mem_append]
      intro h
      rcases h with h | h
      · exact hu h
      · simp only [keys, List.map_cons, List.map_nil, List.mem_singleton, hOid] at h
        exact obsoleteId_ne_otherId h.symm

/-- The "Uncategorized" container in the table after the synthesis, seen from the table
`T1` the synthesis starts with. -/
theorem synthesis_other (env : Env) (c : ComboCfg) (T1 : PackageDefinitionTable)
    (hn : (keys T1).Nodup) (ho : obsoleteId ∉ keys T1) (hu : otherId ∉ keys T1) :
    (otherId ∈ keys (createContainerTbl env c otherCond piOther
        (createContainerTbl env c (obsoleteCond env c) piObsolete T1))
      ↔ memberIds otherCond (createContainerTbl env c (obsoleteCond env c) piObsolete T1) ≠ []) ∧
    (∀ U, find (createContainerTbl env c otherCond piOther
        (createContainerTbl env c (obsoleteCond env c) piObsolete T1)) otherId = some U →
      U.requiredPackages
        = memberIds otherCond (createContainerTbl env c (obsoleteCond env c) piObsolete T1)) ∧
    (∀ P ∈ createContainerTbl env c (obsoleteCond env c) piObsolete T1, otherCond P = true →
      find (createContainerTbl env c otherCond piOther
        (createContainerTbl env c (obsoleteCond env c) piObsolete T1)) P.id
        = some (pushRequiredBy otherId P)) ∧
    (∀ x ∈ memberIds (obsoleteCond env c) T1,
      x ∉ memberIds otherCond (createContainerTbl env c (obsoleteCond env c) piObsolete T1)) ∧
    obsoleteId ∉ memberIds otherCond (createContainerTbl env c (obsoleteCond env c) piObsolete T1) ∧
    otherId ∉ memberIds otherCond (createContainerTbl env c (obsoleteCond env c) piObsolete T1) := by
  obtain ⟨hn2, hu2⟩ := obsoletePass_keys env c T1 hn ho hu
  have hshape1 := createContainerTbl_shape env c (obsoleteCond env c) piObsolete T1 hn ho rfl
  have hshape2 := createContainerTbl_shape env c otherCond piOther _ hn2 hu2 rfl
  have hUid : ∀ m, (containerEntry env c piOther m).id = otherId := by
    intro m; simp [containerEntry, piOther]
  have hOid : (containerEntry env c piObsolete (memberIds (obsoleteCond env c) T1)).id
      = obsoleteId := by simp [containerEntry, piObsolete]
  refine ⟨?_, ?_, ?_, ?_, ?_, ?_⟩
  · rw [hshape2]
    split
    · rename_i hm2
      exact ⟨fun h => absurd h hu2, fun h => absurd hm2 h⟩
    · rename_i hm2
      refine ⟨fun _ => hm2, fun _ => ?_⟩
      rw [keys_append, List.mem_append]
      right
      simp [keys, hUid]
  · intro U hU
    rw [hshape2] at hU
    split at hU
    · rw [(find_eq_none_iff _ _).2 hu2] at hU
      cases hU
    · rw [find_append, find_markMembers, (find_eq_none_iff _ _).2 hu2] at hU
      simp only [Option.map_none', Option.none_or] at hU
      have hs := find_singleton_self (containerEntry env c piOther
        (memberIds otherCond (createContainerTbl env c (obsoleteCond env c) piObsolete T1)))
      rw [hUid] at hs
      rw [hs] at hU
      rw [← Option.some.inj hU]
      simp [containerEntry]
  · intro P hP hcP
    have hmem : P.id ∈ memberIds otherCond
        (createContainerTbl env c (obsoleteCond env c) piObsolete T1) :=
      (mem_memberIds hn2 otherCond hP).2 hcP
    have hm2 : memberIds otherCond
        (createContainerTbl env c (obsoleteCond env c) piObsolete T1) ≠ [] := by
      intro h; rw [h] at hmem; cases hmem
    rw [hshape2, if_neg hm2, find_append, find_markMembers, find_of_mem_nodup hn2 hP]
    simp [hcP, Option.or, piOther]
  · intro x hx hx2
    have hm1 : memberIds (obsoleteCond env c) T1 ≠ [] := by
      intro h; rw [h] at hx; cases hx
    unfold memberIds keys at hx
    obtain ⟨P, hPf, hPid⟩ := List.mem_map.1 hx
    obtain ⟨hP, hcP⟩ := List.mem_filter.1 hPf
    have hq : pushRequiredBy obsoleteId P
        ∈ createContainerTbl env c (obsoleteCond env c) piObsolete T1 := by
      rw [hshape1, if_neg hm1]
      apply List.mem_append_left
      unfold markMembers
      apply List.mem_map.2
      exact ⟨P, hP, by simp [hcP, piObsolete]⟩
    have hqid : (pushRequiredBy obsoleteId P).id = x := hPid
    rw [← hqid] at hx2
    have := (mem_memberIds hn2 otherCond hq).1 hx2
    rw [otherCond_pushRequiredBy] at this
    cases this
  · intro h
    by_cases hm1 : memberIds (obsoleteCond env c) T1 = []
    · have hk := memberIds_subset otherCond _ h
      rw [hshape1, if_pos hm1] at hk
      exact ho hk
    · have hq : containerEntry env c piObsolete (memberIds (obsoleteCond env c) T1)
          ∈ createContainerTbl env c (obsoleteCond env c) piObsolete T1 := by
        rw [hshape1, if_neg hm1]
        apply List.mem_append_right
        simp
      rw [← hOid] at h
      have := (mem_memberIds hn2 otherCond hq).1 h
      rw [otherCond_containerEntry env c piObsolete _ hm1 rfl] at this
      cases this
  · intro h
    exact hu2 (memberIds_subset otherCond _ h)

theorem linkedTbl_keys (env : Env) (c : ComboCfg) (cfg : Cfg)
    (hres : ∀ m ∈ cfg, m.id ≠ obsoleteId ∧ m.id ≠ otherId) :
    (keys (linkedTbl env c [] cfg)).Nodup ∧
    obsoleteId ∉ keys (linkedTbl env c [] cfg) ∧ otherId ∉ keys (linkedTbl env c [] cfg) := by
  have hn0 : (keys (cfg.foldl (loadKeyTbl env c) [])).Nodup :=
    loadKeysTbl_nodup env c cfg [] (by simp)
  have hkey : ∀ cid, (∀ m ∈ cfg, m.id ≠ cid) → cid ∉ keys (linkedTbl env c [] cfg) := by
    intro cid hcid h
    unfold linkedTbl at h
    rw [keys_determineDependencies] at h
    obtain ⟨e, he, hid⟩ := List.mem_map.1 h
    rcases loadKeysTbl_mem env c cfg [] he with h2 | ⟨m, hm, _, hr⟩
    · cases h2
    · subst hr
      simp only [resolve_id] at hid
      exact hcid m hm hid
  refine ⟨?_, hkey obsoleteId (fun m hm => (hres m hm).1), hkey otherId (fun m hm => (hres m hm).2)⟩
  unfold linkedTbl
  rw [keys_determineDependencies]
  exact hn0

/-- C14, as amended.  After a full load into an empty store whose manifest records do
not define a reserved container id, with `S2` the store after the creation of the
"Obsolete" container: the "Uncategorized" container is in the table exactly when some
package of `S2` is neither contained nor a container; then its `requiredPackages` are
exactly the ids of those packages, in table order, and each of them ends up with the
container's id, and only it, in its `requiredBy`.  No member of the "Obsolete" container
is a member of the "Uncategorized" container, and neither container is a member of the
"Uncategorized" container.  With leaf packages "a" (obsolete) and "b" (not obsolete)
the members are `["b"]`. -/
theorem Load_other_container (env : Env) (s : Store)
    (hnew : s.loadedAllPackageManifests = false) (hempty : s.packageTable = [])
    (hres : ∀ m ∈ readManifests env, m.id ≠ obsoleteId ∧ m.id ≠ otherId) :
    (otherId ∈ keys (Load env s).packageTable ↔
      ∃ P ∈ (obsoleteStore env s (readManifests env)).packageTable, otherCond P = true) ∧
    (∀ U, find (Load env s).packageTable otherId = some U →
      U.requiredPackages
        = keys ((obsoleteStore env s (readManifests env)).packageTable.filter otherCond)) ∧
    (∀ P ∈ (obsoleteStore env s (readManifests env)).packageTable, otherCond P = true →
      ∃ M, find (Load env s).packageTable P.id = some M ∧ M.requiredBy = [otherId] ∧
        manifestOf M = manifestOf P) ∧
    (∀ U, find (Load env s).packageTable otherId = some U →
      obsoleteId ∉ U.requiredPackages ∧ otherId ∉ U.requiredPackages ∧
      ∀ O, find (Load env s).packageTable obsoleteId = some O →
        ∀ x ∈ O.requiredPackages, x ∉ U.requiredPackages) ∧
    ((TryGetPackage envObsoleteLeaf Store.empty otherId).1.1 = true ∧
      (TryGetPackage envObsoleteLeaf Store.empty otherId).1.2.requiredPackages = ["b"]) := by
  obtain ⟨hn1, ho1, hu1⟩ := linkedTbl_keys env (loadedCfg env s.comboCfg) (readManifests env) hres
  have hF := (Load_tables env s hnew).1
  rw [hempty] at hF
  have hS2 := obsoleteStore_packageTable env s (readManifests env)
  rw [hempty] at hS2
  have hsyn := synthesis_other env (loadedCfg env s.comboCfg) _ hn1 ho1 hu1
  have hsynO := synthesis_find env (loadedCfg env s.comboCfg) _ hn1 ho1 hu1
  obtain ⟨hn2, _⟩ := obsoletePass_keys env (loadedCfg env s.comboCfg) _ hn1 ho1 hu1
  rw [hF, hS2]
  unfold LoadCfgTbl
  refine ⟨?_, ?_, ?_, ?_, by decide⟩
  · rw [hsyn.1]
    constructor
    · intro h
      cases hl : (createContainerTbl env (loadedCfg env s.comboCfg)
          (obsoleteCond env (loadedCfg env s.comboCfg)) piObsolete
          (linkedTbl env (loadedCfg env s.comboCfg) [] (readManifests env))).filter otherCond with
      | nil => simp [memberIds, hl] at h
      | cons a t =>
        have ha : a ∈ (createContainerTbl env (loadedCfg env s.comboCfg)
            (obsoleteCond env (loadedCfg env s.comboCfg)) piObsolete
            (linkedTbl env (loadedCfg env s.comboCfg) [] (readManifests env))).filter
              otherCond := by rw [hl]; exact List.mem_cons_self _ _
        exact ⟨a, (List.mem_filter.1 ha).1, (List.mem_filter.1 ha).2⟩
    · rintro ⟨P, hP, hcP⟩ h
      have := (mem_memberIds hn2 otherCond hP).2 hcP
      rw [h] at this
      cases this
  · intro U hU
    exact hsyn.2.1 U hU
  · intro P hP hcP
    refine ⟨pushRequiredBy otherId P, hsyn.2.2.1 P hP hcP, ?_, rfl⟩
    have : P.requiredBy = [] := by
      simp only [otherCond, PackageInfo.IsContained, Bool.and_eq_true, Bool.not_eq_true',
        Bool.not_eq_false', List.isEmpty_iff] at hcP
      exact hcP.1
    simp [pushRequiredBy, this]
  · intro U hU
    have hUr := hsyn.2.1 U hU
    rw [hUr]
    refine ⟨hsyn.2.2.2.2.1, hsyn.2.2.2.2.2, ?_⟩
    intro O hO x hx
    rw [hsynO.2.1 O hO] at hx
    exact hsyn.2.2.2.1 x hx

/-- Witness for `Load_other_container`: the leaf packages "a" (flagged obsolete) and "b"
of `envObsoleteLeaf`, loaded into the empty store. -/
theorem Load_other_container_witness :
    (Store.empty.loadedAllPackageManifests = false ∧ Store.empty.packageTable = [] ∧
      ∀ m ∈ readManifests envObsoleteLeaf, m.id ≠ obsoleteId ∧ m.id ≠ otherId) ∧
    (otherId ∈ keys (Load envObsoleteLeaf Store.empty).packageTable ↔
      ∃ P ∈ (obsoleteStore envObsoleteLeaf Store.empty
          (readManifests envObsoleteLeaf)).packageTable, otherCond P = true) ∧
    (∀ U, find (Load envObsoleteLeaf Store.empty).packageTable otherId = some U →
      U.requiredPackages
        = keys ((obsoleteStore envObsoleteLeaf Store.empty
            (readManifests envObsoleteLeaf)).packageTable.filter otherCond)) :=
  ⟨⟨rfl, rfl, by decide⟩,
   (Load_other_container envObsoleteLeaf Store.empty rfl rfl (by decide)).1,
   (Load_other_container envObsoleteLeaf Store.empty rfl rfl (by decide)).2.1⟩

/-- C14 as stated fails.  The manifest itself defines a leaf package with the reserved
id of the "Uncategorized" container.  After the load the entry with that id is the
manifest's package: its `requiredPackages` is empty, although the packages that are
neither contained nor a container after the obsolete pass are that package and "b",
and both carry the container's id in their `requiredBy`. -/
theorem Load_other_container_counterexample :
    otherId ∈ keys (Load envReservedOther Store.empty).packageTable ∧
    (TryGetPackage envReservedOther Store.empty otherId).1.2.requiredPackages = [] ∧
    keys ((obsoleteStore envReservedOther Store.empty
      (readManifests envReservedOther)).packageTable.filter otherCond) = [otherId, "b"] ∧
    (TryGetPackage envReservedOther Store.empty "b").1.2.requiredBy = [otherId] := by
  decide

/-! ## C15: IsObsolete, GetReleaseState and SetReleaseState -/

@[simp] theorem ComboCfg.PutValue_loaded (c : ComboCfg) (admin : Bool) (id : String)
    (v : CfgValue) : (c.PutValue admin id v).loaded = c.loaded := by
  cases admin <;> rfl

@[simp] theorem ComboCfg.DeleteKey_loaded (c : ComboCfg) (admin : Bool) (id : String) :
    (c.DeleteKey admin id).loaded = c.loaded := by
  cases admin <;> rfl

theorem SetTimeInstalled_known (env : Env) (s : Store) (id : String) (t : time_t)
    (h : id ∈ keys (Load env s).packageTable) :
    SetTimeInstalled env s id t =
      (Except.ok (),
        { packageTable := modify (Load env s).packageTable id (fun e =>
            if env.session.IsAdminMode
            then { e with timeInstalled := t, timeInstalledByAdmin := t }
            else { e with timeInstalled := t, timeInstalledByUser := t }),
          installedFileInfoTable := (Load env s).installedFileInfoTable,
          loadedAllPackageManifests := true,
          comboCfg :=
            if IsValidTimeT t
            then (Load env s).comboCfg.PutValue env.session.IsAdminMode id (CfgValue.TimeInstalled t)
            else (Load env s).comboCfg.DeleteKey env.session.IsAdminMode id }) := by
  have hl : (Load env s).loadedAllPackageManifests = true := Load_loadedAll env s
  have hf := (find_isSome_iff _ _).2 h
  obtain ⟨e, he⟩ := Option.isSome_iff_exists.1 hf
  unfold SetTimeInstalled assignField operatorIndex
  simp only [he]
  have hload : ∀ (tbl : PackageDefinitionTable) (i : InstalledFileInfoTable) (c : ComboCfg),
      Load env { packageTable := tbl, installedFileInfoTable := i,
                 loadedAllPackageManifests := true, comboCfg := c }
        = { packageTable := tbl, installedFileInfoTable := i,
            loadedAllPackageManifests := true, comboCfg := c } :=
    fun tbl i c => Load_of_loaded env _ rfl
  simp only [hl, hload, find_modify, implies_true, if_true, he, Option.map_some', modify_modify]
  cases ha : env.session.IsAdminMode <;> cases hv : IsValidTimeT t <;>
    simp [hload, he, find_modify, modify_modify]

theorem getters_of_loaded (env : Env) (s : Store) (id : String)
    (hl : s.comboCfg.loaded = true) :
    (GetUserTimeInstalled env s id).1 = userTimeInstalledIn s.comboCfg id ∧
    (GetCommonTimeInstalled env s id).1 = commonTimeInstalledIn s.comboCfg id ∧
    (GetTimeInstalled env s id).1 = timeInstalledIn env.session.IsAdminMode s.comboCfg id := by
  rw [GetUserTimeInstalled_val, GetCommonTimeInstalled_val, GetTimeInstalled_val,
    loadedCfg_of_loaded env _ hl]
  exact ⟨rfl, rfl, rfl⟩

/-- The install times the scoped store holds for `id` after the write of
`SetTimeInstalled(id, t)`, in terms of those it held before. -/
theorem times_after_write (c : ComboCfg) (admin : Bool) (id : String) (t : time_t) :
    let c2 := if IsValidTimeT t then c.PutValue admin id (CfgValue.TimeInstalled t)
      else c.DeleteKey admin id
    userTimeInstalledIn c2 id = (if admin then userTimeInstalledIn c id else t) ∧
    commonTimeInstalledIn c2 id = (if admin then t else commonTimeInstalledIn c id) ∧
    timeInstalledIn admin c2 id
      = (if IsValidTimeT t || admin then t else commonTimeInstalledIn c id) := by
  intro c2
  have hinv : IsValidTimeT t = false → t = InvalidTimeT := by
    intro h; simpa [IsValidTimeT] using h
  cases admin <;> cases hv : IsValidTimeT t <;>
    simp [c2, hv, userTimeInstalledIn, commonTimeInstalledIn, timeInstalledIn,
      ComboCfg.TryGetTimeInstalled, ComboCfg.PutValue, ComboCfg.DeleteKey, ComboCfg.putScope,
      ComboCfg.scope, ComboCfg.currentScope, ComboCfg.putRecord]
  all_goals exact (hinv hv).symm

theorem resolve_cachedAgree (env : Env) (c : ComboCfg) (p x : PackageInfo)
    (hd : env.session.IsMiKTeXDirect = false) (hid : x.id = p.id) :
    cachedAgree c (resolve env c p x) := by
  unfold cachedAgree resolve
  simp [hd, hid]

theorem definePackageTbl_cachedAgree (env : Env) (c : ComboCfg) (tbl : PackageDefinitionTable)
    (p : PackageInfo) (hd : env.session.IsMiKTeXDirect = false)
    (h : ∀ e ∈ tbl, cachedAgree c e) : ∀ e ∈ definePackageTbl env c tbl p, cachedAgree c e := by
  intro e he
  unfold definePackageTbl modify at he
  obtain ⟨x, hx, rfl⟩ := List.mem_map.1 he
  by_cases hxp : x.id = p.id
  · simp only [hxp, if_true]
    exact resolve_cachedAgree env c p x hd hxp
  · simp only [hxp, if_false]
    unfold insert at hx
    split at hx
    · exact h x hx
    · rcases List.mem_append.1 hx with hx | hx
      · exact h x hx
      · simp only [List.mem_singleton] at hx
        exact absurd (hx ▸ rfl) hxp

theorem markMembers_cachedAgree (c : ComboCfg) (cond : PackageInfo → Bool) (cid : String)
    (tbl : PackageDefinitionTable) (h : ∀ e ∈ tbl, cachedAgree c e) :
    ∀ e ∈ markMembers cond cid tbl, cachedAgree c e := by
  intro e he
  obtain ⟨x, hx, rfl⟩ := mem_markMembers he
  by_cases hc : cond x = true
  · simp only [hc, if_true]; exact h x hx
  · simp only [hc, if_false]; exact h x hx

theorem createContainerTbl_cachedAgree (env : Env) (c : ComboCfg) (cond : PackageInfo → Bool)
    (pi : PackageInfo) (tbl : PackageDefinitionTable) (hn : (keys tbl).Nodup)
    (hd : env.session.IsMiKTeXDirect = false) (h : ∀ e ∈ tbl, cachedAgree c e) :
    ∀ e ∈ createContainerTbl env c cond pi tbl, cachedAgree c e := by
  rw [createContainerTbl_eq env c cond pi tbl hn]
  split
  · exact definePackageTbl_cachedAgree env c _ _ hd (markMembers_cachedAgree c cond pi.id tbl h)
  · exact markMembers_cachedAgree c cond pi.id tbl h

theorem LoadCfgTbl_cachedAgree (env : Env) (c : ComboCfg) (cfg : Cfg)
    (hd : env.session.IsMiKTeXDirect = false) :
    ∀ e ∈ LoadCfgTbl env c [] cfg, cachedAgree c e := by
  have hn0 : (keys (cfg.foldl (loadKeyTbl env c) [])).Nodup :=
    loadKeysTbl_nodup env c cfg [] (by simp)
  have h0 : ∀ e ∈ cfg.foldl (loadKeyTbl env c) [], cachedAgree c e := by
    intro e he
    rcases loadKeysTbl_mem env c cfg [] he with h | ⟨m, _, _, hr⟩
    · cases h
    · subst hr
      exact resolve_cachedAgree env c _ _ hd rfl
  have hn1 : (keys (linkedTbl env c [] cfg)).Nodup := by
    unfold linkedTbl; rw [keys_determineDependencies]; exact hn0
  have h1 : ∀ e ∈ linkedTbl env c [] cfg, cachedAgree c e := by
    intro e he
    unfold linkedTbl at he
    rw [determineDependencies_eq] at he
    obtain ⟨x, hx, rfl⟩ := List.mem_map.1 he
    exact h0 x hx
  obtain ⟨_, _, _, hn2⟩ :=
    createContainerTbl_manifestOf env c (obsoleteCond env c) piObsolete _ hn1
  unfold LoadCfgTbl
  exact createContainerTbl_cachedAgree env c otherCond piOther _ hn2 hd
    (createContainerTbl_cachedAgree env c (obsoleteCond env c) piObsolete _ hn1 hd h1)

theorem TableStep.loaded {env : Env} {s s2 : Store} {tbl : PackageDefinitionTable}
    (h : TableStep env s s2 tbl) (hl : s.comboCfg.loaded = true) :
    s2.comboCfg.loaded = true := by
  rcases h.2.2.2 with h2 | h2
  · rw [h2]; exact hl
  · rw [h2, loadedCfg_of_loaded env _ hl]; exact hl

theorem loadedCfg_loaded (env : Env) (c : ComboCfg) : (loadedCfg env c).loaded = true := by
  unfold loadedCfg
  split
  · assumption
  · rfl

theorem loadKey_opened (env : Env) (s : Store) (key : Manifest)
    (hd : env.session.IsMiKTeXDirect = false)
    (h : s.packageTable = [] ∨ s.comboCfg.loaded = true) :
    (loadKey env s key).packageTable = [] ∨ (loadKey env s key).comboCfg.loaded = true := by
  unfold loadKey
  split
  · exact h
  · simp only [GetPackageManifest_IsInstalled, Bool.false_eq_true, if_false]
    split
    · exact h
    · right
      rw [DefinePackage_eq]
      simp only [hd, Bool.false_eq_true, if_false]
      exact loadedCfg_loaded env _

theorem loadKeys_opened (env : Env) (cfg : Cfg) (s : Store)
    (hd : env.session.IsMiKTeXDirect = false)
    (h : s.packageTable = [] ∨ s.comboCfg.loaded = true) :
    (loadKeys env s cfg).packageTable = [] ∨ (loadKeys env s cfg).comboCfg.loaded = true := by
  unfold loadKeys
  induction cfg generalizing s with
  | nil => exact h
  | cons key rest ih =>
    simp only [List.foldl_cons]
    exact ih _ (loadKey_opened env s key hd h)

theorem createContainerTbl_nil (env : Env) (c : ComboCfg) (cond : PackageInfo → Bool)
    (pi : PackageInfo) (hpi : pi.requiredPackages = []) :
    createContainerTbl env c cond pi [] = [] := by
  unfold createContainerTbl
  simp [hpi]

theorem determineDependencies_nil : determineDependencies [] = [] := rfl

theorem Load_opened (env : Env) (s : Store) (hnew : s.loadedAllPackageManifests = false)
    (hempty : s.packageTable = []) (hd : env.session.IsMiKTeXDirect = false) :
    (Load env s).packageTable = [] ∨ (Load env s).comboCfg.loaded = true := by
  have hc : (Load env s).comboCfg = (LoadCfg env s (readManifests env)).comboCfg := by
    unfold Load; simp [hnew]
  have ht : (Load env s).packageTable = (LoadCfg env s (readManifests env)).packageTable := by
    unfold Load; simp [hnew]
  rw [hc, ht]
  rcases loadKeys_opened env (readManifests env) s hd (Or.inl hempty) with h | h
  · left
    rw [LoadCfg_eq_createOther, (createOther_step env _).1, obsoleteStore_packageTable]
    have hT0 := (loadKeys_step env s (readManifests env)).1
    rw [h] at hT0
    unfold linkedTbl
    rw [← hT0, determineDependencies_nil, createContainerTbl_nil _ _ _ _ rfl,
      createContainerTbl_nil _ _ _ _ rfl]
  · right
    have h2 : (linkedStore env s (readManifests env)).comboCfg.loaded = true := h
    have h3 := (createObsolete_step env (linkedStore env s (readManifests env))).loaded h2
    exact (createOther_step env _).loaded h3

/-- C16, as amended.  Let `e` be the entry of the known package `id`.  When the scoped
store has been opened and the per-scope install times cached in `e` are those of the
scoped store, then immediately after `SetTimeInstalled(id, t)`, for every `t` and in
both modes, the cached `timeInstalledByUser` and `timeInstalledByAdmin` of the entry
equal `GetUserTimeInstalled(id)` and `GetCommonTimeInstalled(id)`, and the in-memory
`timeInstalled` equals `GetTimeInstalled(id)` when `t` is valid, or the session is in
admin mode, or the Common scope holds no install time for `id`.  The premises hold after
a full load of an empty store outside the installed-from-the-start mode. -/
theorem SetTimeInstalled_agreement (env : Env) (s : Store) (id : String) (t : time_t)
    (e : PackageInfo) (hf : find (Load env s).packageTable id = some e) :
    ((Load env s).comboCfg.loaded = true →
      e.timeInstalledByUser = (GetUserTimeInstalled env (Load env s) id).1 →
      e.timeInstalledByAdmin = (GetCommonTimeInstalled env (Load env s) id).1 →
      ∃ e2, find (SetTimeInstalled env s id t).2.packageTable id = some e2 ∧
        e2.timeInstalledByUser
          = (GetUserTimeInstalled env (SetTimeInstalled env s id t).2 id).1 ∧
        e2.timeInstalledByAdmin
          = (GetCommonTimeInstalled env (SetTimeInstalled env s id t).2 id).1 ∧
        ((IsValidTimeT t = true ∨ env.session.IsAdminMode = true ∨
            (GetCommonTimeInstalled env (Load env s) id).1 = InvalidTimeT) →
          e2.timeInstalled = (GetTimeInstalled env (SetTimeInstalled env s id t).2 id).1)) ∧
    (s.loadedAllPackageManifests = false → s.packageTable = [] →
      env.session.IsMiKTeXDirect = false →
      (Load env s).comboCfg.loaded = true ∧
      e.timeInstalledByUser = (GetUserTimeInstalled env (Load env s) id).1 ∧
      e.timeInstalledByAdmin = (GetCommonTimeInstalled env (Load env s) id).1) := by
  have hk : id ∈ keys (Load env s).packageTable := by
    rw [← find_isSome_iff, hf]; rfl
  have hid : e.id = id := find_some_id hf
  constructor
  · intro hl hu ha
    obtain ⟨g1, g2, _⟩ := getters_of_loaded env (Load env s) id hl
    rw [g1] at hu
    rw [g2] at ha
    rw [g2]
    rw [SetTimeInstalled_known env s id t hk]
    simp only []
    have hl2 : (if IsValidTimeT t = true
        then (Load env s).comboCfg.PutValue env.session.IsAdminMode id (CfgValue.TimeInstalled t)
        else (Load env s).comboCfg.DeleteKey env.session.IsAdminMode id).loaded = true := by
      split <;> simp [hl]
    obtain ⟨w1, w2, w3⟩ := times_after_write (Load env s).comboCfg env.session.IsAdminMode id t
    obtain ⟨r1, r2, r3⟩ := getters_of_loaded env
      { packageTable := modify (Load env s).packageTable id (fun e =>
          if env.session.IsAdminMode
          then { e with timeInstalled := t, timeInstalledByAdmin := t }
          else { e with timeInstalled := t, timeInstalledByUser := t }),
        installedFileInfoTable := (Load env s).installedFileInfoTable,
        loadedAllPackageManifests := true,
        comboCfg :=
          if IsValidTimeT t
          then (Load env s).comboCfg.PutValue env.session.IsAdminMode id (CfgValue.TimeInstalled t)
          else (Load env s).comboCfg.DeleteKey env.session.IsAdminMode id } id hl2
    rw [r1, r2, r3]
    simp only [] at w1 w2 w3 ⊢
    rw [w1, w2, w3]
    rw [find_modify _ _ _ (by intro x; split <;> rfl), if_pos rfl, hf]
    refine ⟨_, rfl, ?_, ?_, ?_⟩
    · cases hadm : env.session.IsAdminMode <;> simp [hu]
    · cases hadm : env.session.IsAdminMode <;> simp [ha]
    · intro hcase
      cases hadm : env.session.IsAdminMode
      · cases hv : IsValidTimeT t
        · rcases hcase with h | h | h
          · rw [hv] at h; cases h
          · rw [hadm] at h; cases h
          · have ht : t = InvalidTimeT := by simpa [IsValidTimeT] using hv
            simp [h, ht]
        · simp
      · simp
  · intro hnew hempty hd
    have hl : (Load env s).comboCfg.loaded = true := by
      rcases Load_opened env s hnew hempty hd with h | h
      · rw [h] at hk; cases hk
      · exact h
    obtain ⟨g1, g2, _⟩ := getters_of_loaded env (Load env s) id hl
    have hF := (Load_tables env s hnew).1
    rw [hempty] at hF
    have hc : (Load env s).comboCfg = loadedCfg env s.comboCfg := by
      have h1 : (Load env s).comboCfg = (LoadCfg env s (readManifests env)).comboCfg := by
        unfold Load; simp [hnew]
      have h2 := (LoadCfg_step env s (readManifests env)).cfg
      rw [← h1, loadedCfg_of_loaded env _ hl] at h2
      exact h2
    have he : e ∈ LoadCfgTbl env (loadedCfg env s.comboCfg) [] (readManifests env) := by
      rw [← hF]; exact find_some_mem hf
    have hag := LoadCfgTbl_cachedAgree env (loadedCfg env s.comboCfg) (readManifests env) hd e he
    unfold cachedAgree at hag
    rw [hid] at hag
    rw [g1, g2, hc]
    exact ⟨loadedCfg_loaded env _, hag.1, hag.2⟩

/-- Witness for `SetTimeInstalled_agreement`: the package "foo" of `envFoo`, loaded into
the empty store outside admin mode; the premises of the agreement hold after the load. -/
theorem SetTimeInstalled_agreement_witness :
    find (Load (envFoo userSession) Store.empty).packageTable "foo"
      = some (TryGetPackage (envFoo userSession) Store.empty "foo").1.2 ∧
    ((Load (envFoo userSession) Store.empty).comboCfg.loaded = true ∧
      (TryGetPackage (envFoo userSession) Store.empty "foo").1.2.timeInstalledByUser
        = (GetUserTimeInstalled (envFoo userSession)
            (Load (envFoo userSession) Store.empty) "foo").1 ∧
      (TryGetPackage (envFoo userSession) Store.empty "foo").1.2.timeInstalledByAdmin
        = (GetCommonTimeInstalled (envFoo userSession)
            (Load (envFoo userSession) Store.empty) "foo").1) :=
  ⟨by decide,
   (SetTimeInstalled_agreement (envFoo userSession) Store.empty "foo" 300
     (TryGetPackage (envFoo userSession) Store.empty "foo").1.2 (by decide)).2 rfl rfl rfl⟩

/-- C16 as stated fails.  Outside admin mode, with "foo" installed in the User scope at
100 and in the Common scope at 200, `SetTimeInstalled("foo", invalid)` leaves the
in-memory `timeInstalled` at the invalid sentinel while `GetTimeInstalled("foo")` now
returns the Common-scope time 200.  And in a session that is installed from the start
the cached `timeInstalledByAdmin` is the time the package was packaged, 5, also after
`SetTimeInstalled("foo", 300)`, while `GetCommonTimeInstalled("foo")` returns 200. -/
theorem SetTimeInstalled_agreement_counterexample :
    ((SetTimeInstalled (envFoo userSession) Store.empty "foo" InvalidTimeT).1.toBool = true ∧
      (TryGetPackage (envFoo userSession)
        (SetTimeInstalled (envFoo userSession) Store.empty "foo" InvalidTimeT).2
        "foo").1.2.timeInstalled = InvalidTimeT ∧
      (GetTimeInstalled (envFoo userSession)
        (SetTimeInstalled (envFoo userSession) Store.empty "foo" InvalidTimeT).2 "foo").1 = 200) ∧
    ((SetTimeInstalled envFooDirect Store.empty "foo" 300).1.toBool = true ∧
      (TryGetPackage envFooDirect
        (SetTimeInstalled envFooDirect Store.empty "foo" 300).2
        "foo").1.2.timeInstalledByAdmin = 5 ∧
      (GetCommonTimeInstalled envFooDirect
        (SetTimeInstalled envFooDirect Store.empty "foo" 300).2 "foo").1 = 200) := by
  decide

/-! ## C17: a second merge of the same manifests -/

/-- C17, evaluated.  The packages "base" and "ext" of the spec, "ext" requiring "base",
are loaded with `Load()`; then the same manifest file is merged once more through
`LoadAllPackageManifests`.  The first loop ignores both records, but the dependency
pass runs again over the whole table and appends every back-edge a second time: the
`requiredBy` of "base" grows from `["ext"]` to `["ext", "ext"]`, and the back-edge of the
"Uncategorized" container to "ext" is doubled as well.  Keys, install times and file
reference counts stay as they were. -/
theorem second_merge_duplicates_back_edges :
    (TryGetPackage envBaseExt (Load envBaseExt Store.empty) "base").1.2.requiredBy = ["ext"] ∧
    (TryGetPackage envBaseExt
      (LoadAllPackageManifests envBaseExt (Load envBaseExt Store.empty)
        envBaseExt.commonManifestsIni) "base").1.2.requiredBy = ["ext", "ext"] ∧
    (TryGetPackage envBaseExt (Load envBaseExt Store.empty) "ext").1.2.requiredBy = [otherId] ∧
    (TryGetPackage envBaseExt
      (LoadAllPackageManifests envBaseExt (Load envBaseExt Store.empty)
        envBaseExt.commonManifestsIni) "ext").1.2.requiredBy = [otherId, otherId] ∧
    keys (LoadAllPackageManifests envBaseExt (Load envBaseExt Store.empty)
        envBaseExt.commonManifestsIni).packageTable
      = keys (Load envBaseExt Store.empty).packageTable ∧
    (LoadAllPackageManifests envBaseExt (Load envBaseExt Store.empty)
        envBaseExt.commonManifestsIni).packageTable.map (fun e => e.timeInstalled)
      = (Load envBaseExt Store.empty).packageTable.map (fun e => e.timeInstalled) ∧
    (TryGetPackage envBaseExt
      (LoadAllPackageManifests envBaseExt
        (LoadAllPackageManifests envBaseExt Store.empty envBaseExt.commonManifestsIni)
        envBaseExt.commonManifestsIni) "base").1.2.requiredBy = ["ext", "ext"] := by
  decide

/-! ## C15: IsObsolete and GetReleaseState -/

end PackageDataStore
